import Mathlib

/-!
Verification of the Icecast listener scraper (`scraper/scrape_and_push.py`).

This file gives a shallow embedding of the scraper's pure core:

* Python-style lenient integer coercion (`int(...)` over strings/bools),
  used by `safe_int` and by the CSV loader and series builder;
* the CSV history store (`load_history` / `save_history`), modelled over
  files as lists of cell rows (the `csv` module round-trips cell lists
  exactly, so quoting/escaping is abstracted away);
* the series builder (`build_series_map`);
* the calendar arithmetic behind `datetime.fromtimestamp(_, timezone.utc)`
  (days-to-civil-date conversion), `row_year`, and the archive
  partitioner (`write_archives`);
* the Icecast JSON mount parser (`parse_mount_source`), the HTML table
  parser (`parse_icecast_html`), and the aggregation step of
  `fetch_listener_data`.

Machine integers do not appear (Python ints are unbounded), so `Int`/`Nat`
are exact.  Network and file I/O are modelled by passing upstream outcomes
and file contents as explicit values.
-/

namespace Scraper

/-! ### Character classes (ASCII model of the Python predicates) -/

/-- ASCII decimal digit test, as used by Python's `int()` parsing.
(Python additionally accepts non-ASCII unicode digits; those never occur
in this pipeline and are not modelled.) -/
def isDigitCh (c : Char) : Bool := 48 ≤ c.toNat && c.toNat ≤ 57

/-- Whitespace as stripped by Python's `int()` (`str.strip` classes:
space, tab, CR, LF, vertical tab, form feed). -/
def isWsCh (c : Char) : Bool :=
  c.toNat = 32 || c.toNat = 9 || c.toNat = 13 || c.toNat = 10 ||
  c.toNat = 11 || c.toNat = 12

/-- Numeric value of an ASCII digit character. -/
def digitVal (c : Char) : Nat := c.toNat - 48

/-- The decimal digit character for `r < 10` (explicit table). -/
def digitCh (r : Nat) : Char :=
  match r with
  | 0 => '0' | 1 => '1' | 2 => '2' | 3 => '3' | 4 => '4'
  | 5 => '5' | 6 => '6' | 7 => '7' | 8 => '8' | _ => '9'

/-! ### Python `int(<string>)` -/

/-- Tail of a Python integer literal after its first digit: digits with
single underscores allowed between digits. -/
def digitsTail : List Char → Bool
  | [] => true
  | c :: rest =>
    if c == '_' then
      match rest with
      | [] => false
      | d :: rest2 => isDigitCh d && digitsTail rest2
    else isDigitCh c && digitsTail rest

/-- A valid unsigned Python integer literal body: at least one digit,
underscores only between digits. -/
def digitsOk : List Char → Bool
  | [] => false
  | c :: rest => isDigitCh c && digitsTail rest

/-- Numeric value of a digit/underscore string (underscores skipped). -/
def digitsVal (l : List Char) : Nat :=
  l.foldl (fun a c => if c == '_' then a else a * 10 + digitVal c) 0

/-- Strip leading and trailing Python whitespace. -/
def stripWs (l : List Char) : List Char :=
  ((l.dropWhile isWsCh).reverse.dropWhile isWsCh).reverse

/-- Python `int(s)` for a string `s`: strips whitespace, allows one sign,
then a digit string; `none` models `ValueError`. -/
def pyIntStr (s : String) : Option Int :=
  match stripWs s.toList with
  | [] => none
  | c :: rest =>
    if c == '-' then (if digitsOk rest then some (-(digitsVal rest : Int)) else none)
    else if c == '+' then (if digitsOk rest then some ((digitsVal rest : Int)) else none)
    else if digitsOk (c :: rest) then some ((digitsVal (c :: rest) : Int)) else none

/-! ### Python `str(<int>)` (decimal representation) -/

/-- Decimal digits of a natural number, most significant first. -/
def natDigits (n : Nat) : List Char :=
  if _h : n < 10 then [digitCh n]
  else natDigits (n / 10) ++ [digitCh (n % 10)]
  decreasing_by exact Nat.div_lt_self (by omega) (by omega)

/-- Python `str(n)` for an integer. -/
def intRepr (n : Int) : String :=
  if n < 0 then ⟨'-' :: natDigits n.natAbs⟩ else ⟨natDigits n.natAbs⟩

/-! #### Round-trip lemmas: `int(str(n)) = n` -/

theorem digitCh_isDigit {r : Nat} (h : r < 10) : isDigitCh (digitCh r) = true := by
  interval_cases r <;> decide

theorem digitVal_digitCh {r : Nat} (h : r < 10) : digitVal (digitCh r) = r := by
  interval_cases r <;> decide

theorem digitCh_ne_underscore {r : Nat} (h : r < 10) : (digitCh r == '_') = false := by
  interval_cases r <;> decide

theorem isDigitCh_not_ws {c : Char} (h : isDigitCh c = true) : isWsCh c = false := by
  simp only [isDigitCh, Bool.and_eq_true, decide_eq_true_eq] at h
  simp only [isWsCh, Bool.or_eq_false_iff, decide_eq_false_iff_not]
  omega

theorem beq_false_of_digit_nondigit {c d : Char} (h : isDigitCh c = true)
    (hd : isDigitCh d = false) : (c == d) = false := by
  cases hb : c == d with
  | false => rfl
  | true =>
    have hcd : c = d := by simpa using hb
    subst hcd
    simp [h] at hd

theorem isDigitCh_ne_underscore {c : Char} (h : isDigitCh c = true) : (c == '_') = false :=
  beq_false_of_digit_nondigit h (by decide)

theorem natDigits_all_digits (n : Nat) : ∀ c ∈ natDigits n, isDigitCh c = true := by
  induction n using Nat.strong_induction_on with
  | _ n ih =>
    rw [natDigits]
    split
    · next h =>
      intro c hc
      simp only [List.mem_singleton] at hc
      subst hc
      exact digitCh_isDigit h
    · next h =>
      intro c hc
      rcases List.mem_append.mp hc with h1 | h2
      · exact ih (n / 10) (Nat.div_lt_self (by omega) (by omega)) c h1
      · simp only [List.mem_singleton] at h2
        subst h2
        exact digitCh_isDigit (Nat.mod_lt _ (by omega))

theorem natDigits_ne_nil (n : Nat) : natDigits n ≠ [] := by
  rw [natDigits]
  split
  · intro hcontra; exact List.noConfusion hcontra
  · intro hcontra
    exact List.noConfusion (List.append_eq_nil.mp hcontra).2

theorem digitsTail_all_digits {l : List Char} (h : ∀ c ∈ l, isDigitCh c = true) :
    digitsTail l = true := by
  induction l with
  | nil => rfl
  | cons c rest ih =>
    have hc : isDigitCh c = true := h c (by simp)
    have hne : (c == '_') = false := isDigitCh_ne_underscore hc
    have hrest : digitsTail rest = true := ih (fun d hd => h d (by simp [hd]))
    cases rest with
    | nil =>
      show (if c == '_' then false else isDigitCh c && digitsTail []) = true
      rw [hne]
      simp [hc, digitsTail]
    | cons d rest2 =>
      show (if c == '_' then isDigitCh d && digitsTail rest2
            else isDigitCh c && digitsTail (d :: rest2)) = true
      rw [hne]
      simp [hc, hrest]

theorem digitsOk_all_digits {l : List Char} (hne : l ≠ [])
    (h : ∀ c ∈ l, isDigitCh c = true) : digitsOk l = true := by
  cases l with
  | nil => exact absurd rfl hne
  | cons c rest =>
    simp only [digitsOk, Bool.and_eq_true]
    exact ⟨h c (by simp), digitsTail_all_digits (fun d hd => h d (by simp [hd]))⟩

theorem digitsVal_append_digit {l : List Char} {c : Char} (hdig : (c == '_') = false) :
    digitsVal (l ++ [c]) = digitsVal l * 10 + digitVal c := by
  have hne : c ≠ '_' := by simpa using hdig
  simp [digitsVal, List.foldl_append, hne]

theorem digitsVal_natDigits (n : Nat) : digitsVal (natDigits n) = n := by
  induction n using Nat.strong_induction_on with
  | _ n ih =>
    rw [natDigits]
    split
    · next h =>
      have hne : digitCh n ≠ '_' := by simpa using digitCh_ne_underscore h
      simp [digitsVal, hne, digitVal_digitCh h]
    · next h =>
      rw [digitsVal_append_digit (digitCh_ne_underscore (Nat.mod_lt _ (by omega)))]
      rw [ih (n / 10) (Nat.div_lt_self (by omega) (by omega))]
      rw [digitVal_digitCh (Nat.mod_lt _ (by omega))]
      omega

theorem dropWhile_none {p : Char → Bool} {l : List Char} (h : ∀ c ∈ l, p c = false) :
    List.dropWhile p l = l := by
  cases l with
  | nil => rfl
  | cons c t => simp [List.dropWhile_cons, h c (by simp)]

theorem stripWs_no_ws {l : List Char} (h : ∀ c ∈ l, isWsCh c = false) :
    stripWs l = l := by
  unfold stripWs
  rw [dropWhile_none h, dropWhile_none, List.reverse_reverse]
  intro c hc
  exact h c (List.mem_reverse.mp hc)

theorem pyIntStr_intRepr (n : Int) : pyIntStr (intRepr n) = some n := by
  have hdig := natDigits_all_digits n.natAbs
  have hok : digitsOk (natDigits n.natAbs) = true :=
    digitsOk_all_digits (natDigits_ne_nil _) hdig
  have hval := digitsVal_natDigits n.natAbs
  by_cases hn : n < 0
  · have hrepr : intRepr n = ⟨'-' :: natDigits n.natAbs⟩ := by rw [intRepr, if_pos hn]
    rw [hrepr]
    show pyIntStr ⟨'-' :: natDigits n.natAbs⟩ = some n
    unfold pyIntStr
    have hs : (String.mk ('-' :: natDigits n.natAbs)).toList = '-' :: natDigits n.natAbs := rfl
    rw [hs, stripWs_no_ws]
    · simp only [if_pos (by decide : (('-' : Char) == '-') = true), if_pos hok, hval]
      congr 1
      omega
    · intro c hc
      rcases List.mem_cons.mp hc with h1 | h2
      · subst h1; decide
      · exact isDigitCh_not_ws (hdig c h2)
  · have hrepr : intRepr n = ⟨natDigits n.natAbs⟩ := by rw [intRepr, if_neg hn]
    rw [hrepr]
    show pyIntStr ⟨natDigits n.natAbs⟩ = some n
    unfold pyIntStr
    have hs : (String.mk (natDigits n.natAbs)).toList = natDigits n.natAbs := rfl
    rw [hs, stripWs_no_ws (fun c hc => isDigitCh_not_ws (hdig c hc))]
    cases hd : natDigits n.natAbs with
    | nil => exact absurd hd (natDigits_ne_nil _)
    | cons c rest =>
      have hc : isDigitCh c = true := hdig c (by rw [hd]; simp)
      simp only
      rw [if_neg (by simp [beq_false_of_digit_nondigit hc (by decide : isDigitCh '-' = false)])]
      rw [if_neg (by simp [beq_false_of_digit_nondigit hc (by decide : isDigitCh '+' = false)])]
      have hok2 : digitsOk (c :: rest) = true := by rw [← hd]; exact hok
      have hval2 : digitsVal (c :: rest) = n.natAbs := by rw [← hd]; exact hval
      rw [if_pos hok2, hval2]
      congr 1
      omega

/-! ### History rows

A loaded history row is a Python dict from column name to either an
integer (coerced) or a string (left as-is).  Python dicts are ordered
with unique keys; we model them as association lists and assume distinct
column names in theorems (the scraper always writes distinct columns). -/

/-- A cell value of a loaded history row: Python `int` or `str`. -/
inductive CVal where
  | cint (n : Int)
  | cstr (s : String)
deriving DecidableEq, Repr

/-- Python `str(v)` for a cell value (what `csv.DictWriter` writes). -/
def cvalStr : CVal → String
  | .cint n => intRepr n
  | .cstr s => s

/-- Python `int(v)` for a cell value; `none` models `ValueError`/`TypeError`. -/
def pyIntCVal : CVal → Option Int
  | .cint n => some n
  | .cstr s => pyIntStr s

/-- A history row: ordered association of column name to value. -/
abbrev Row := List (String × CVal)

/-- `row.get(k)`: first entry with the given key. -/
def rowGet (r : Row) (k : String) : Option CVal :=
  (r.find? (fun e => e.1 == k)).map (·.2)

/-- `row.get(k, d)`. -/
def rowGetD (r : Row) (k : String) (d : CVal) : CVal :=
  (rowGet r k).getD d

theorem rowGet_cons_self {k : String} {v : CVal} {r : Row} :
    rowGet ((k, v) :: r) k = some v := by
  simp [rowGet, List.find?]

theorem rowGet_cons_ne {k k' : String} {v : CVal} {r : Row} (h : k' ≠ k) :
    rowGet ((k, v) :: r) k' = rowGet r k' := by
  have : (k == k') = false := by simpa using fun hc => h hc.symm
  simp [rowGet, List.find?, this]

/-! ### `load_history` (source lines 392–415)

The CSV layer is modelled at the cell level: a file is a list of rows of
cell strings (`csv` round-trips cell lists exactly, so quoting is
abstracted).  `csv.DictReader` takes the first row as the header and zips
it with each data row. -/

/-- The dict `csv.DictReader` yields for one data row: header names
zipped with that row's cells, all values strings. -/
def mkDict (header : List String) (cells : List String) : Row :=
  (List.zip header cells).map (fun e => (e.1, CVal.cstr e.2))

/-- The `for k in row` coercion loop of `load_history`: every column
except the two timestamp columns is coerced with `int(...)` when that
succeeds, and left as a string otherwise. -/
def coerceFields (r : Row) : Row :=
  r.map (fun e =>
    if e.1 == "timestamp_iso" || e.1 == "timestamp_ms" then e
    else
      match e.2 with
      | .cstr s =>
        match pyIntStr s with
        | some n => (e.1, CVal.cint n)
        | none => e
      | v => (e.1, v))

/-- `row["timestamp_ms"] = int(row["timestamp_ms"])`: `none` models the
`KeyError`/`ValueError`/`TypeError` that escapes the row loop. -/
def forceTs (r : Row) : Option Row :=
  match rowGet r "timestamp_ms" with
  | none => none
  | some v =>
    match pyIntCVal v with
    | none => none
    | some n =>
      some (r.map (fun e => if e.1 == "timestamp_ms" then (e.1, CVal.cint n) else e))

/-- One iteration of the `load_history` row loop. -/
def coerceRow (header : List String) (cells : List String) : Option Row :=
  forceTs (coerceFields (mkDict header cells))

/-- The `for row in reader` loop of `load_history`: successfully coerced
rows are appended to `rows`; the first failing row raises out of the
loop into the surrounding `except`, which returns the rows collected so
far. -/
def loadRows (header : List String) : List (List String) → List Row → List Row
  | [], acc => acc
  | r :: rs, acc =>
    match coerceRow header r with
    | some row => loadRows header rs (acc ++ [row])
    | none => acc

/-- `load_history()` over an explicit file content; `none` models a
missing file (`os.path.exists` returns false). -/
def loadHistory : Option (List (List String)) → List Row
  | none => []
  | some [] => []
  | some (header :: data) => loadRows header data []

/-! ### `save_history` (source lines 417–426) -/

/-- `csv.DictWriter.writerow`: one cell per field name, `str()` of the
row's value (missing keys write the `restval` `""`; unreachable when the
row's keys match `fieldnames`). -/
def writeRow (fieldnames : List String) (r : Row) : List String :=
  fieldnames.map (fun k =>
    match rowGet r k with
    | some v => cvalStr v
    | none => "")

/-- The file content `save_history(rows, fieldnames)` produces: the
header row followed by one cell row per record. -/
def saveHistory (rows : List Row) (fieldnames : List String) : List (List String) :=
  fieldnames :: rows.map (writeRow fieldnames)

/-! ### File-system effect trace of `save_history`

`save_history` opens `HISTORY_CSV` with mode `"w"` — which truncates the
file in place — and then writes the header and rows.  To settle the
atomic-replacement claim we record the sequence of file-system
operations the function performs and give them a semantics. -/

/-- File-system operations relevant to `save_history`. -/
inductive FsOp where
  | openTrunc (path : String)
  | writeCells (path : String) (cells : List String)
  | renameOp (src dst : String)
deriving DecidableEq, Repr

/-- Path of the history CSV (`scraper/history.csv` relative to the repo). -/
def HISTORY_CSV : String := "scraper/history.csv"

/-- The ordered file-system operations of `save_history(rows, fieldnames)`:
`open(HISTORY_CSV, "w")` (truncate in place), `writer.writeheader()`,
then one `writer.writerow` per record.  No temporary file and no rename
appear. -/
def saveHistoryOps (rows : List Row) (fieldnames : List String) : List FsOp :=
  FsOp.openTrunc HISTORY_CSV :: FsOp.writeCells HISTORY_CSV fieldnames ::
    rows.map (fun r => FsOp.writeCells HISTORY_CSV (writeRow fieldnames r))

/-- A file system: map from path to file content (list of cell rows). -/
abbrev Fs := List (String × List (List String))

def fsGet (fs : Fs) (p : String) : Option (List (List String)) :=
  (fs.find? (fun e => e.1 == p)).map (·.2)

def fsSet (fs : Fs) (p : String) (c : List (List String)) : Fs :=
  if fs.any (fun e => e.1 == p) then
    fs.map (fun e => if e.1 == p then (e.1, c) else e)
  else fs ++ [(p, c)]

def fsRemove (fs : Fs) (p : String) : Fs :=
  fs.filter (fun e => !(e.1 == p))

/-- Semantics of one file-system operation. -/
def applyOp (fs : Fs) : FsOp → Fs
  | .openTrunc p => fsSet fs p []
  | .writeCells p cells => fsSet fs p ((fsGet fs p).getD [] ++ [cells])
  | .renameOp src dst =>
    match fsGet fs src with
    | none => fs
    | some c => fsSet (fsRemove fs src) dst c

/-- Run a list of operations (a prefix models an interrupted write). -/
def runOps (fs : Fs) (ops : List FsOp) : Fs :=
  ops.foldl applyOp fs

/-! ### `build_series_map` (source lines 428–441) -/

/-- A series map: ordered association of series name to point list. -/
abbrev SeriesMap := List (String × List (Int × Int))

def seriesFind (m : SeriesMap) (k : String) : Option (List (Int × Int)) :=
  (m.find? (fun e => e.1 == k)).map (·.2)

/-- `{name: [] for name in names}`: duplicate names keep their first
position (the re-assigned value is the same empty list). -/
def insertEmpty (m : SeriesMap) (n : String) : SeriesMap :=
  if m.any (fun e => e.1 == n) then m else m ++ [(n, [])]

def initSeries (names : List String) : SeriesMap :=
  names.foldl insertEmpty []

/-- `series_map[name].append(p)`; the name is always a key (seeded by the
dict comprehension), so updating in place is faithful. -/
def appendPoint (m : SeriesMap) (n : String) (p : Int × Int) : SeriesMap :=
  m.map (fun e => if e.1 == n then (e.1, e.2 ++ [p]) else e)

/-- `int(row.get("timestamp_ms", 0))`; `none` models the uncaught
`ValueError`/`TypeError` that escapes `build_series_map`. -/
def rowTs (r : Row) : Option Int :=
  pyIntCVal (rowGetD r "timestamp_ms" (CVal.cint 0))

/-- Inner loop `for name in names` of `build_series_map` for one row:
append `(ts, int(row[name]))` when the name is present and coercible
(the `try/except` swallows coercion failures per name). -/
def addRowPoints (ts : Int) (r : Row) (m : SeriesMap) (names : List String) : SeriesMap :=
  names.foldl (fun m n =>
    match rowGet r n with
    | none => m
    | some v =>
      match pyIntCVal v with
      | none => m
      | some x => appendPoint m n (ts, x)) m

/-- Outer `for row in rows` loop of `build_series_map`. -/
def buildRows (names : List String) : List Row → SeriesMap → Option SeriesMap
  | [], m => some m
  | r :: rs, m =>
    match rowTs r with
    | none => none
    | some ts => buildRows names rs (addRowPoints ts r m names)

/-- `build_series_map(rows, names)`. -/
def buildSeriesMap (rows : List Row) (names : List String) : Option SeriesMap :=
  buildRows names rows (initSeries names)

/-- The (zero- or one-element) point contributed by row `r` to series
`k`, given the row's timestamp. -/
def rowPoint (ts : Int) (r : Row) (k : String) : List (Int × Int) :=
  match rowGet r k with
  | none => []
  | some v =>
    match pyIntCVal v with
    | none => []
    | some x => [(ts, x)]

/-- All points a row contributes to series `k` (one copy per occurrence
of `k` in `names`). -/
def rowContrib (names : List String) (r : Row) (k : String) : List (Int × Int) :=
  match rowTs r with
  | none => []
  | some ts => (names.filter (fun n => n == k)).flatMap (fun _ => rowPoint ts r k)

/-! #### Lemmas about `build_series_map` -/

theorem appendPoint_cons_pos {e : String × List (Int × Int)} {t : SeriesMap} {n : String}
    {p : Int × Int} (h : e.1 = n) :
    appendPoint (e :: t) n p = (e.1, e.2 ++ [p]) :: appendPoint t n p := by
  simp [appendPoint, h]

theorem appendPoint_cons_neg {e : String × List (Int × Int)} {t : SeriesMap} {n : String}
    {p : Int × Int} (h : ¬e.1 = n) :
    appendPoint (e :: t) n p = e :: appendPoint t n p := by
  simp [appendPoint, h]

theorem appendPoint_keys (m : SeriesMap) (n : String) (p : Int × Int) :
    (appendPoint m n p).map (fun e => e.1) = m.map (fun e => e.1) := by
  unfold appendPoint
  rw [List.map_map]
  apply List.map_congr_left
  intro a _
  by_cases h : a.1 = n <;> simp [h]

theorem seriesFind_cons {e : String × List (Int × Int)} {t : SeriesMap} {k : String} :
    seriesFind (e :: t) k = if e.1 = k then some e.2 else seriesFind t k := by
  by_cases h : e.1 = k
  · simp [seriesFind, List.find?_cons, h]
  · simp [seriesFind, List.find?_cons, h]

theorem seriesFind_appendPoint_self {m : SeriesMap} {n : String} {p : Int × Int} :
    seriesFind (appendPoint m n p) n = (seriesFind m n).map (fun ps => ps ++ [p]) := by
  induction m with
  | nil => rfl
  | cons e t ih =>
    by_cases h : e.1 = n
    · rw [appendPoint_cons_pos h, seriesFind_cons, seriesFind_cons, if_pos h, if_pos h]
      rfl
    · rw [appendPoint_cons_neg h, seriesFind_cons, seriesFind_cons, if_neg h, if_neg h]
      exact ih

theorem seriesFind_appendPoint_ne {m : SeriesMap} {n k : String} {p : Int × Int}
    (hk : k ≠ n) : seriesFind (appendPoint m n p) k = seriesFind m k := by
  induction m with
  | nil => rfl
  | cons e t ih =>
    by_cases h : e.1 = n
    · have hpk : ¬e.1 = k := by rw [h]; exact fun hc => hk hc.symm
      rw [appendPoint_cons_pos h, seriesFind_cons, seriesFind_cons]
      simp only [hpk, if_false]
      exact ih
    · rw [appendPoint_cons_neg h, seriesFind_cons, seriesFind_cons]
      by_cases hek : e.1 = k
      · rw [if_pos hek, if_pos hek]
      · rw [if_neg hek, if_neg hek]
        exact ih

theorem addRowPoints_keys (ts : Int) (r : Row) (names : List String) :
    ∀ m : SeriesMap, (addRowPoints ts r m names).map (fun e => e.1) = m.map (fun e => e.1) := by
  induction names with
  | nil => intro m; rfl
  | cons n rest ih =>
    intro m
    show (addRowPoints ts r _ rest).map _ = _
    cases hg : rowGet r n with
    | none =>
      simpa [addRowPoints, hg] using ih m
    | some v =>
      cases hv : pyIntCVal v with
      | none => simpa [addRowPoints, hg, hv] using ih m
      | some x =>
        have := ih (appendPoint m n (ts, x))
        simpa [addRowPoints, hg, hv, appendPoint_keys] using this

theorem seriesFind_addRowPoints {ts : Int} {r : Row} {k : String} :
    ∀ (names : List String) (m : SeriesMap) (ps : List (Int × Int)),
    seriesFind m k = some ps →
    seriesFind (addRowPoints ts r m names) k =
      some (ps ++ (names.filter (fun n => n == k)).flatMap (fun _ => rowPoint ts r k)) := by
  intro names
  induction names with
  | nil => intro m ps h; simpa [addRowPoints] using h
  | cons n rest ih =>
    intro m ps h
    by_cases hnk : n = k
    · subst hnk
      have hfil : (n :: rest).filter (fun x => x == n) =
          n :: rest.filter (fun x => x == n) := by simp
      rw [hfil]
      cases hg : rowGet r n with
      | none =>
        have : rowPoint ts r n = [] := by simp [rowPoint, hg]
        rw [this]
        simpa [addRowPoints, hg, this] using ih m ps h
      | some v =>
        cases hv : pyIntCVal v with
        | none =>
          have : rowPoint ts r n = [] := by simp [rowPoint, hg, hv]
          rw [this]
          simpa [addRowPoints, hg, hv, this] using ih m ps h
        | some x =>
          have hpt : rowPoint ts r n = [(ts, x)] := by simp [rowPoint, hg, hv]
          have hstep : seriesFind (appendPoint m n (ts, x)) n = some (ps ++ [(ts, x)]) := by
            rw [seriesFind_appendPoint_self, h]
            rfl
          have := ih (appendPoint m n (ts, x)) (ps ++ [(ts, x)]) hstep
          have hgoal : addRowPoints ts r m (n :: rest) =
              addRowPoints ts r (appendPoint m n (ts, x)) rest := by
            simp [addRowPoints, hg, hv]
          rw [hgoal, this, hpt]
          simp
    · have hfil : (n :: rest).filter (fun x => x == k) =
          rest.filter (fun x => x == k) := by
        simp only [List.filter_cons]
        rw [if_neg (by simpa using hnk)]
      rw [hfil]
      cases hg : rowGet r n with
      | none => simpa [addRowPoints, hg] using ih m ps h
      | some v =>
        cases hv : pyIntCVal v with
        | none => simpa [addRowPoints, hg, hv] using ih m ps h
        | some x =>
          have hstep : seriesFind (appendPoint m n (ts, x)) k = some ps := by
            rw [seriesFind_appendPoint_ne (fun hc => hnk hc.symm)]
            exact h
          have := ih (appendPoint m n (ts, x)) ps hstep
          have hgoal : addRowPoints ts r m (n :: rest) =
              addRowPoints ts r (appendPoint m n (ts, x)) rest := by
            simp [addRowPoints, hg, hv]
          rw [hgoal, this]

theorem buildRows_isSome {names : List String} :
    ∀ (rows : List Row) (m : SeriesMap), (∀ r ∈ rows, (rowTs r).isSome) →
    ∃ m', buildRows names rows m = some m' := by
  intro rows
  induction rows with
  | nil => intro m _; exact ⟨m, rfl⟩
  | cons r rs ih =>
    intro m hsome
    cases hr : rowTs r with
    | none =>
      have := hsome r (by simp)
      rw [hr] at this
      simp at this
    | some ts =>
      obtain ⟨m', hm'⟩ := ih (addRowPoints ts r m names) (fun x hx => hsome x (by simp [hx]))
      exact ⟨m', by simp [buildRows, hr, hm']⟩

theorem buildRows_keys {names : List String} :
    ∀ (rows : List Row) (m m' : SeriesMap), buildRows names rows m = some m' →
    m'.map (fun e => e.1) = m.map (fun e => e.1) := by
  intro rows
  induction rows with
  | nil =>
    intro m m' h
    have : m = m' := by simpa [buildRows] using h
    rw [this]
  | cons r rs ih =>
    intro m m' h
    cases hr : rowTs r with
    | none => simp [buildRows, hr] at h
    | some ts =>
      have h2 : buildRows names rs (addRowPoints ts r m names) = some m' := by
        simpa [buildRows, hr] using h
      rw [ih _ _ h2, addRowPoints_keys]

theorem buildRows_find {names : List String} {k : String} :
    ∀ (rows : List Row) (m : SeriesMap) (ps : List (Int × Int)),
    (∀ r ∈ rows, (rowTs r).isSome) → seriesFind m k = some ps →
    ∀ m', buildRows names rows m = some m' →
    seriesFind m' k = some (ps ++ rows.flatMap (fun r => rowContrib names r k)) := by
  intro rows
  induction rows with
  | nil =>
    intro m ps _ h m' hm'
    have : m = m' := by simpa [buildRows] using hm'
    subst this
    simpa using h
  | cons r rs ih =>
    intro m ps hsome h m' hm'
    cases hr : rowTs r with
    | none =>
      have := hsome r (by simp)
      rw [hr] at this
      simp at this
    | some ts =>
      have hstep := @seriesFind_addRowPoints ts r k names m ps h
      have h2 : buildRows names rs (addRowPoints ts r m names) = some m' := by
        simpa [buildRows, hr] using hm'
      have hfin := ih (addRowPoints ts r m names) _
        (fun x hx => hsome x (by simp [hx])) hstep m' h2
      rw [hfin]
      congr 1
      rw [List.flatMap_cons]
      have hcontrib : rowContrib names r k =
          (names.filter (fun n => n == k)).flatMap (fun _ => rowPoint ts r k) := by
        simp [rowContrib, hr]
      rw [hcontrib, List.append_assoc]

theorem foldl_insertEmpty :
    ∀ (names : List String) (acc : SeriesMap), names.Nodup →
    (∀ n ∈ names, (acc.map (fun e => e.1)).count n = 0) →
    names.foldl insertEmpty acc = acc ++ names.map (fun n => (n, [])) := by
  intro names
  induction names with
  | nil => intro acc _ _; simp
  | cons n rest ih =>
    intro acc hnd hnotin
    have hn : ¬acc.any (fun e => e.1 == n) = true := by
      intro hc
      rcases List.any_eq_true.mp hc with ⟨e, he, heq⟩
      have : e.1 = n := by simpa using heq
      have hcnt := hnotin n (by simp)
      have : n ∈ acc.map (fun e => e.1) := by
        rw [← this]
        exact List.mem_map_of_mem _ he
      rw [List.count_eq_zero] at hcnt
      exact hcnt this
    show List.foldl insertEmpty (insertEmpty acc n) rest = _
    have hins : insertEmpty acc n = acc ++ [(n, [])] := by
      simp only [insertEmpty]
      rw [if_neg hn]
    rw [hins, ih (acc ++ [(n, [])]) (List.Nodup.of_cons hnd) ?side]
    · simp
    case side =>
      intro x hx
      have hxn : x ≠ n := by
        intro hc
        subst hc
        exact (List.nodup_cons.mp hnd).1 hx
      rw [List.map_append, List.count_append]
      have h1 : ((acc.map (fun e => e.1)).count x) = 0 := hnotin x (by simp [hx])
      have h2 : ((([(n, ([] : List (Int × Int)))] : SeriesMap).map (fun e => e.1)).count x) = 0 := by
        simp [List.count_eq_zero, hxn]
      omega

theorem initSeries_nodup {names : List String} (h : names.Nodup) :
    initSeries names = names.map (fun n => (n, ([] : List (Int × Int)))) := by
  have := foldl_insertEmpty names [] h (by simp)
  simpa [initSeries] using this

theorem seriesFind_init {names : List String} {k : String} (hk : k ∈ names) :
    seriesFind (names.map (fun n => (n, ([] : List (Int × Int))))) k = some [] := by
  induction names with
  | nil => cases hk
  | cons n rest ih =>
    rw [List.map_cons, seriesFind_cons]
    by_cases h : n = k
    · rw [if_pos h]
    · have hmem : k ∈ rest := by
        rcases List.mem_cons.mp hk with h1 | h2
        · exact absurd h1.symm h
        · exact h2
      rw [if_neg h]
      exact ih hmem

theorem rowContrib_of_absent {names : List String} {r : Row} {k : String}
    (h : rowGet r k = none) : rowContrib names r k = [] := by
  have hpt : ∀ ts, rowPoint ts r k = [] := fun ts => by simp [rowPoint, h]
  cases hts : rowTs r with
  | none => simp [rowContrib, hts]
  | some ts =>
    simp only [rowContrib, hts]
    induction (names.filter (fun n => n == k)) with
    | nil => rfl
    | cons a l ihl => simp [List.flatMap_cons, hpt, ihl]

theorem flatMap_nil_of {α β : Type} {l : List α} {f : α → List β}
    (h : ∀ x ∈ l, f x = []) : l.flatMap f = [] := by
  induction l with
  | nil => rfl
  | cons a t ih =>
    rw [List.flatMap_cons, h a (by simp), ih (fun x hx => h x (by simp [hx]))]
    rfl

/-- Further variants of the row lookup lemmas, stated on a whole pair. -/
theorem rowGet_cons_head {e : String × CVal} {r : Row} : rowGet (e :: r) e.1 = some e.2 := by
  simp [rowGet, List.find?_cons]

theorem rowGet_cons_skip {e : String × CVal} {r : Row} {k : String} (h : k ≠ e.1) :
    rowGet (e :: r) k = rowGet r k := by
  have hb : (e.1 == k) = false := by simpa using fun hc => h hc.symm
  simp [rowGet, List.find?_cons, hb]

/-- **C10**: for every list of well-formed rows (integer-coercible
`timestamp_ms`, as `load_history` guarantees) and every list of distinct
requested names, `build_series_map` returns a map whose keys are exactly
the requested names in order; each requested series holds exactly the
per-row contributions in source-row order (`rows.flatMap`), and a name
present in no row maps to the empty list rather than being omitted. -/
theorem build_series_map_spec (rows : List Row) (names : List String)
    (hms : ∀ r ∈ rows, (rowTs r).isSome) (hnd : names.Nodup) :
    ∃ m, buildSeriesMap rows names = some m ∧
      m.map (fun e => e.1) = names ∧
      (∀ n ∈ names, seriesFind m n = some (rows.flatMap (fun r => rowContrib names r n))) ∧
      (∀ n ∈ names, (∀ r ∈ rows, rowGet r n = none) → seriesFind m n = some []) := by
  obtain ⟨m, hm⟩ := buildRows_isSome rows (initSeries names) hms
  have hfind : ∀ n ∈ names, seriesFind m n =
      some (rows.flatMap (fun r => rowContrib names r n)) := by
    intro n hn
    have hinit : seriesFind (initSeries names) n = some [] := by
      rw [initSeries_nodup hnd]
      exact seriesFind_init hn
    have := buildRows_find rows (initSeries names) [] hms hinit m hm
    simpa using this
  refine ⟨m, hm, ?_, hfind, ?_⟩
  · rw [buildRows_keys rows _ m hm, initSeries_nodup hnd, List.map_map]
    exact List.map_id names
  · intro n hn habs
    have hz : rows.flatMap (fun r => rowContrib names r n) = [] :=
      flatMap_nil_of (fun r hr => rowContrib_of_absent (habs r hr))
    rw [hfind n hn, hz]

def exRowsC10 : List Row :=
  [[("timestamp_ms", CVal.cint 1000), ("A", CVal.cint 5)],
   [("timestamp_ms", CVal.cint 2000), ("A", CVal.cint 7)]]

def exNamesC10 : List String := ["A", "B"]

/-- Witness for C10 at a concrete input ("B" occurs in no row). -/
theorem build_series_map_spec_witness :
    ∃ m, buildSeriesMap exRowsC10 exNamesC10 = some m ∧
      m.map (fun e => e.1) = exNamesC10 ∧
      (∀ n ∈ exNamesC10, seriesFind m n =
        some (exRowsC10.flatMap (fun r => rowContrib exNamesC10 r n))) ∧
      (∀ n ∈ exNamesC10, (∀ r ∈ exRowsC10, rowGet r n = none) → seriesFind m n = some []) :=
  build_series_map_spec exRowsC10 exNamesC10 (by decide) (by decide)

/-! ### C1: behaviour of `load_history` on a row with bad `timestamp_ms` -/

theorem loadRows_append_bad (header : List String) (bad : List String)
    (post : List (List String)) (hbad : coerceRow header bad = none) :
    ∀ (pre : List (List String)) (acc : List Row),
    (∀ r ∈ pre, (coerceRow header r).isSome) →
    loadRows header (pre ++ bad :: post) acc = loadRows header pre acc := by
  intro pre
  induction pre with
  | nil => intro acc _; simp [loadRows, hbad]
  | cons r rs ih =>
    intro acc hpre
    cases hr : coerceRow header r with
    | none =>
      have := hpre r (by simp)
      rw [hr] at this
      simp at this
    | some row =>
      show loadRows header (r :: (rs ++ bad :: post)) acc = loadRows header (r :: rs) acc
      simp only [loadRows, hr]
      exact ih _ (fun x hx => hpre x (by simp [hx]))

/-- **C1 (amended)**: in `load_history`, a stored row whose
`timestamp_ms` fails to parse as an integer aborts the load at that row:
the rows before it are returned, and the failing row and every row after
it are dropped (the exception escapes the row loop into the surrounding
`except`). -/
theorem load_history_stops_at_bad_row (header : List String)
    (pre : List (List String)) (bad : List String) (post : List (List String))
    (hpre : ∀ r ∈ pre, (coerceRow header r).isSome)
    (hbad : coerceRow header bad = none) :
    loadHistory (some (header :: (pre ++ bad :: post))) =
      loadHistory (some (header :: pre)) := by
  show loadRows header (pre ++ bad :: post) [] = loadRows header pre []
  exact loadRows_append_bad header bad post hbad pre [] hpre

/-- Witness for the amended C1 at a concrete file. -/
theorem load_history_stops_at_bad_row_witness :
    loadHistory (some (["timestamp_iso", "timestamp_ms", "A"] ::
        ([["x", "1", "2"]] ++ ["y", "bad", "3"] :: [["z", "4", "5"]]))) =
      loadHistory (some (["timestamp_iso", "timestamp_ms", "A"] :: [["x", "1", "2"]])) :=
  load_history_stops_at_bad_row _ _ _ _ (by decide) (by decide)

/-- **C1 (counterexample)**: with a three-row file whose second row has
unparseable `timestamp_ms`, `load_history` returns only the first row:
the third row (timestamp 3000), which the claim says is still returned,
is dropped. -/
theorem load_history_counterexample :
    loadHistory (some [["timestamp_iso", "timestamp_ms", "Total"],
        ["2024-01-01T00:00:00+00:00", "1000", "5"],
        ["2024-01-02T00:00:00+00:00", "oops", "6"],
        ["2024-01-03T00:00:00+00:00", "3000", "7"]]) =
      [[("timestamp_iso", CVal.cstr "2024-01-01T00:00:00+00:00"),
        ("timestamp_ms", CVal.cint 1000), ("Total", CVal.cint 5)]] ∧
    ¬∃ r ∈ loadHistory (some [["timestamp_iso", "timestamp_ms", "Total"],
        ["2024-01-01T00:00:00+00:00", "1000", "5"],
        ["2024-01-02T00:00:00+00:00", "oops", "6"],
        ["2024-01-03T00:00:00+00:00", "3000", "7"]]),
      rowGet r "timestamp_ms" = some (CVal.cint 3000) := by
  constructor
  · decide
  · decide

/-! ### C7: persistence round trip -/

theorem writeRow_self : ∀ (r : Row), (r.map (fun e => e.1)).Nodup →
    writeRow (r.map (fun e => e.1)) r = r.map (fun e => cvalStr e.2) := by
  intro r
  induction r with
  | nil => intro _; rfl
  | cons e t ih =>
    intro hnd
    have hnotin : e.1 ∉ t.map (fun e => e.1) := (List.nodup_cons.mp hnd).1
    show writeRow (e.1 :: t.map (fun e => e.1)) (e :: t) =
      cvalStr e.2 :: t.map (fun e => cvalStr e.2)
    simp only [writeRow, List.map_cons, rowGet_cons_head]
    congr 1
    have hcong : ∀ k ∈ t.map (fun e => e.1),
        (match rowGet (e :: t) k with
         | some v => cvalStr v
         | none => "") =
        (match rowGet t k with
         | some v => cvalStr v
         | none => "") := by
      intro k hk
      rw [rowGet_cons_skip (fun hc => hnotin (hc ▸ hk))]
    rw [List.map_congr_left hcong]
    exact ih (List.nodup_cons.mp hnd).2

theorem coerceRow_round (iso : String) (ms : Int) (labels : List (String × Int))
    (hno : ∀ e ∈ labels, e.1 ≠ "timestamp_iso" ∧ e.1 ≠ "timestamp_ms") :
    coerceRow ("timestamp_iso" :: "timestamp_ms" :: labels.map (fun e => e.1))
        (iso :: intRepr ms :: labels.map (fun e => intRepr e.2)) =
      some (("timestamp_iso", CVal.cstr iso) :: ("timestamp_ms", CVal.cint ms) ::
        labels.map (fun e => (e.1, CVal.cint e.2))) := by
  have hdict : mkDict ("timestamp_iso" :: "timestamp_ms" :: labels.map (fun e => e.1))
      (iso :: intRepr ms :: labels.map (fun e => intRepr e.2)) =
      ("timestamp_iso", CVal.cstr iso) :: ("timestamp_ms", CVal.cstr (intRepr ms)) ::
        labels.map (fun e => (e.1, CVal.cstr (intRepr e.2))) := by
    simp [mkDict, List.zip_cons_cons, List.zip_map', List.map_map]
  have hcf : coerceFields (("timestamp_iso", CVal.cstr iso) ::
        ("timestamp_ms", CVal.cstr (intRepr ms)) ::
        labels.map (fun e => (e.1, CVal.cstr (intRepr e.2)))) =
      ("timestamp_iso", CVal.cstr iso) :: ("timestamp_ms", CVal.cstr (intRepr ms)) ::
        labels.map (fun e => (e.1, CVal.cint e.2)) := by
    simp only [coerceFields, List.map_cons, List.map_map]
    congr 1
    congr 1
    apply List.map_congr_left
    intro e he
    have h1 : ¬e.1 = "timestamp_iso" := (hno e he).1
    have h2 : ¬e.1 = "timestamp_ms" := (hno e he).2
    simp [Function.comp, h1, h2, pyIntStr_intRepr]
  have hget : rowGet (("timestamp_iso", CVal.cstr iso) ::
        ("timestamp_ms", CVal.cstr (intRepr ms)) ::
        labels.map (fun e => (e.1, CVal.cint e.2))) "timestamp_ms" =
      some (CVal.cstr (intRepr ms)) := by
    rw [rowGet_cons_skip (by decide : ("timestamp_ms" : String) ≠ "timestamp_iso")]
    exact rowGet_cons_head
  show forceTs (coerceFields (mkDict _ _)) = _
  rw [hdict, hcf]
  simp only [forceTs, hget, pyIntCVal, pyIntStr_intRepr]
  congr 1
  simp only [List.map_cons, List.map_map, List.cons.injEq]
  refine ⟨?_, ?_, ?_⟩
  · simp
  · simp
  · apply List.map_congr_left
    intro x hx
    have h2 : ¬x.1 = "timestamp_ms" := (hno x hx).2
    simp [Function.comp, h2]

/-- **C7**: saving a single appended record to an empty history with the
matching column order and reloading yields exactly one row equal to the
appended record — integer fields come back as the same integers and the
ISO timestamp string is unchanged. -/
theorem save_load_round_trip (iso : String) (ms : Int) (labels : List (String × Int))
    (hnd : ("timestamp_iso" :: "timestamp_ms" :: labels.map (fun e => e.1)).Nodup) :
    loadHistory (some (saveHistory
        [("timestamp_iso", CVal.cstr iso) :: ("timestamp_ms", CVal.cint ms) ::
          labels.map (fun e => (e.1, CVal.cint e.2))]
        ("timestamp_iso" :: "timestamp_ms" :: labels.map (fun e => e.1)))) =
      [("timestamp_iso", CVal.cstr iso) :: ("timestamp_ms", CVal.cint ms) ::
        labels.map (fun e => (e.1, CVal.cint e.2))] := by
  have hnd1 := List.nodup_cons.mp hnd
  have hnd2 := List.nodup_cons.mp hnd1.2
  have hno : ∀ e ∈ labels, e.1 ≠ "timestamp_iso" ∧ e.1 ≠ "timestamp_ms" := by
    intro e he
    constructor
    · intro hc
      exact hnd1.1 (by rw [← hc]; exact List.mem_cons_of_mem _ (List.mem_map_of_mem _ he))
    · intro hc
      exact hnd2.1 (by rw [← hc]; exact List.mem_map_of_mem _ he)
  have hkeys : (("timestamp_iso", CVal.cstr iso) :: ("timestamp_ms", CVal.cint ms) ::
      labels.map (fun e => (e.1, CVal.cint e.2))).map (fun e => e.1) =
      "timestamp_iso" :: "timestamp_ms" :: labels.map (fun e => e.1) := by
    simp [List.map_map]
  have hwr : writeRow ("timestamp_iso" :: "timestamp_ms" :: labels.map (fun e => e.1))
      (("timestamp_iso", CVal.cstr iso) :: ("timestamp_ms", CVal.cint ms) ::
        labels.map (fun e => (e.1, CVal.cint e.2))) =
      iso :: intRepr ms :: labels.map (fun e => intRepr e.2) := by
    rw [← hkeys, writeRow_self _ (by rw [hkeys]; exact hnd)]
    simp [cvalStr, List.map_map]
  show loadHistory (some (_ :: [writeRow _ _])) = _
  rw [hwr]
  show loadRows _ [iso :: intRepr ms :: labels.map (fun e => intRepr e.2)] [] = _
  simp only [loadRows, coerceRow_round iso ms labels hno]
  rfl

/-- Witness for C7 at a concrete record. -/
theorem save_load_round_trip_witness :
    loadHistory (some (saveHistory
        [("timestamp_iso", CVal.cstr "2025-01-01T00:00:00+00:00") ::
          ("timestamp_ms", CVal.cint 1735689600000) ::
          ([("Tower 1", 3), ("Tower 2", 0), ("Total", 3)].map (fun e => (e.1, CVal.cint e.2)))]
        ("timestamp_iso" :: "timestamp_ms" ::
          ([("Tower 1", 3), ("Tower 2", 0), ("Total", 3)].map (fun e => e.1))))) =
      [("timestamp_iso", CVal.cstr "2025-01-01T00:00:00+00:00") ::
        ("timestamp_ms", CVal.cint 1735689600000) ::
        ([("Tower 1", 3), ("Tower 2", 0), ("Total", 3)].map (fun e => (e.1, CVal.cint e.2)))] :=
  save_load_round_trip "2025-01-01T00:00:00+00:00" 1735689600000
    [("Tower 1", 3), ("Tower 2", 0), ("Total", 3)] (by decide)

/-! ### C8: `save_history` rewrites the history file in place -/

/-- `true` unless the operation is a rename. -/
def notRename : FsOp → Bool
  | .renameOp _ _ => false
  | _ => true

/-- **C8**: `save_history` performs no rename at all (so it cannot be
writing a temporary file and renaming it over the original), and its
first operation truncates the history file in place: interrupting right
after that first operation leaves the previously persisted file empty —
neither the old nor the new content survives.  This contradicts the
claimed temp-file-plus-rename atomicity. -/
theorem save_history_not_atomic :
    (∀ (rows : List Row) (fieldnames : List String),
      (saveHistoryOps rows fieldnames).all notRename = true) ∧
    runOps [(HISTORY_CSV, [["timestamp_iso", "timestamp_ms", "Total"],
                           ["2024-01-01T00:00:00+00:00", "1000", "5"]])]
        ((saveHistoryOps
            [[("timestamp_iso", CVal.cstr "2024-01-01T00:00:00+00:00"),
              ("timestamp_ms", CVal.cint 1000), ("Total", CVal.cint 5)],
             [("timestamp_iso", CVal.cstr "2024-01-02T00:00:00+00:00"),
              ("timestamp_ms", CVal.cint 2000), ("Total", CVal.cint 6)]]
            ["timestamp_iso", "timestamp_ms", "Total"]).take 1) =
      [(HISTORY_CSV, [])] := by
  constructor
  · intro rows fieldnames
    simp only [saveHistoryOps, List.all_cons, Bool.and_eq_true]
    refine ⟨rfl, rfl, ?_⟩
    refine List.all_eq_true.mpr ?_
    intro op hop
    obtain ⟨r, _, rfl⟩ := List.mem_map.mp hop
    rfl
  · rfl

/-! ### Calendar arithmetic

`datetime.fromtimestamp(ms / 1000.0, tz=timezone.utc)` converts an epoch
value to a proleptic-Gregorian UTC date.  Only year and month are used by
the scraper.  Sub-second float precision cannot move the result across a
day boundary at the magnitudes the scraper handles, so exact integer
floor division is faithful. -/

/-- Days-since-1970-01-01 to civil (year, month, day). -/
def civilFromDays (z0 : Int) : Int × Int × Int :=
  let z := z0 + 719468
  let era := Int.fdiv z 146097
  let doe := z - era * 146097
  let yoe := Int.fdiv (doe - Int.fdiv doe 1460 + Int.fdiv doe 36524 - Int.fdiv doe 146096) 365
  let y := yoe + era * 400
  let doy := doe - (365 * yoe + Int.fdiv yoe 4 - Int.fdiv yoe 100)
  let mp := Int.fdiv (5 * doy + 2) 153
  let d := doy - Int.fdiv (153 * mp + 2) 5 + 1
  let m := mp + (if mp < 10 then 3 else -9)
  (if m ≤ 2 then y + 1 else y, m, d)

/-- UTC (year, month) of an epoch millisecond value;
`none` models `datetime.fromtimestamp` raising when the date falls
outside the supported year range 1..9999. -/
def fromTimestampYM (ms : Int) : Option (Int × Int) :=
  let c := civilFromDays (Int.fdiv (Int.fdiv ms 1000) 86400)
  if 1 ≤ c.1 ∧ c.1 ≤ 9999 then some (c.1, c.2.1) else none

/-- `row_year(row)` (source lines 490–499): `int` of the first four
characters of the ISO timestamp string; on failure, the UTC year of
`timestamp_ms`; if that also raises, the current year (`nowYear`). -/
def rowYear (r : Row) (nowYear : Int) : Int :=
  match pyIntStr ((cvalStr (rowGetD r "timestamp_iso" (CVal.cstr ""))).take 4) with
  | some y => y
  | none =>
    match rowTs r with
    | none => nowYear
    | some ms =>
      match fromTimestampYM ms with
      | some ym => ym.1
      | none => nowYear

/-- The month partition key of a row in `write_archives` (lines 513–515):
`(dt.year, dt.month)` of `timestamp_ms`.  The code renders it as the
string `f"{year:04d}-{month:02d}"`, which for the representable years
1..9999 is injectively determined by (and ordered like) this pair.
`none` models the uncaught exception from `int(...)`/`fromtimestamp`. -/
def monthKey (r : Row) : Option (Int × Int) :=
  match rowTs r with
  | none => none
  | some ms => fromTimestampYM ms

/-! ### `write_archives` (source lines 501–557) -/

/-- `bucket.setdefault(key, []).append(row)`: append to an existing
bucket or create a new one at the end (Python dict insertion order). -/
def groupAppend {K : Type} [BEq K] (acc : List (K × List Row)) (k : K) (r : Row) :
    List (K × List Row) :=
  if acc.any (fun e => e.1 == k) then
    acc.map (fun e => if e.1 == k then (e.1, e.2 ++ [r]) else e)
  else acc ++ [(k, [r])]

/-- The bucket-building loop of `write_archives` (lines 511–520):
`year = row_year(row)` is computed first, then `timestamp_ms` is parsed
and converted (either step raising aborts the whole function before any
bucket is updated), then the row joins its year and month buckets.
`years_set`/`months_set` are recovered as the groupings' key lists. -/
def bucketRows (nowYear : Int) :
    List Row → List (Int × List Row) → List ((Int × Int) × List Row) →
    Option (List (Int × List Row) × List ((Int × Int) × List Row))
  | [], accY, accM => some (accY, accM)
  | r :: rs, accY, accM =>
    match monthKey r with
    | none => none
    | some mk =>
      bucketRows nowYear rs (groupAppend accY (rowYear r nowYear) r) (groupAppend accM mk r)

/-- Ascending insertion for the year index (`sorted(list(years_set))`). -/
def insertSorted (x : Int) : List Int → List Int
  | [] => [x]
  | y :: t => if x ≤ y then x :: y :: t else y :: insertSorted x t

def sortInts (l : List Int) : List Int := l.foldr insertSorted []

/-- Ascending insertion for the month index; lexicographic on
(year, month), matching `sorted()` of the zero-padded "YYYY-MM" keys. -/
def insertSortedPair (x : Int × Int) : List (Int × Int) → List (Int × Int)
  | [] => [x]
  | y :: t =>
    if x.1 < y.1 ∨ (x.1 = y.1 ∧ x.2 ≤ y.2) then x :: y :: t else y :: insertSortedPair x t

def sortPairs (l : List (Int × Int)) : List (Int × Int) := l.foldr insertSortedPair []

/-- Build one archive payload (`build_series_map(bucket_rows, names)`)
per bucket; `none` propagates the exception out of `write_archives`
(`build_series_map` is called outside the per-file `try`). -/
def mapPayload {K : Type} (names : List String) : List (K × List Row) →
    Option (List (K × SeriesMap))
  | [] => some []
  | (k, rws) :: t =>
    match buildSeriesMap rws names with
    | none => none
    | some sm =>
      match mapPayload names t with
      | none => none
      | some rest => some ((k, sm) :: rest)

/-- The artifacts `write_archives` produces: one payload per year bucket
and per month bucket (each payload also carries `generated_at`, which is
the same `now_iso` string for all of them), plus the two sorted index
artifacts. -/
structure ArchiveOut where
  yearly : List (Int × SeriesMap)
  monthly : List ((Int × Int) × SeriesMap)
  yearsIdx : List Int
  monthsIdx : List (Int × Int)
  generatedAt : String
deriving DecidableEq, Repr

/-- `write_archives(rows, names)`: `nowIso` models `iso_now()` (the
`generated_at` field), `nowYear` models `datetime.now(timezone.utc).year`
in `row_year`'s last-resort branch.  `none` models the function raising
(malformed `timestamp_ms` or out-of-range date). -/
def writeArchives (rows : List Row) (names : List String) (nowIso : String)
    (nowYear : Int) : Option ArchiveOut :=
  match bucketRows nowYear rows [] [] with
  | none => none
  | some (byY, byM) =>
    match mapPayload names byY, mapPayload names byM with
    | some ys, some ms_ =>
      some { yearly := ys, monthly := ms_,
             yearsIdx := sortInts (byY.map (fun e => e.1)),
             monthsIdx := sortPairs (byM.map (fun e => e.1)),
             generatedAt := nowIso }
    | _, _ => none

/-! #### C9: determinism of `write_archives` -/

/-- Everything `write_archives` produces except the `generated_at`
timestamp field. -/
def stripGen (o : Option ArchiveOut) :
    Option (List (Int × SeriesMap) × List ((Int × Int) × SeriesMap) ×
      List Int × List (Int × Int)) :=
  o.map (fun a => (a.yearly, a.monthly, a.yearsIdx, a.monthsIdx))

theorem rowYear_indep {r : Row} {mk : Int × Int} (h : monthKey r = some mk)
    (y1 y2 : Int) : rowYear r y1 = rowYear r y2 := by
  unfold rowYear
  cases pyIntStr ((cvalStr (rowGetD r "timestamp_iso" (CVal.cstr ""))).take 4) with
  | some y => rfl
  | none =>
    cases hts : rowTs r with
    | none => simp [monthKey, hts] at h
    | some ms =>
      cases hym : fromTimestampYM ms with
      | none => simp [monthKey, hts, hym] at h
      | some ym => simp only [hym]

theorem bucketRows_indep (y1 y2 : Int) :
    ∀ (rows : List Row) (accY : List (Int × List Row)) (accM : List ((Int × Int) × List Row)),
    bucketRows y1 rows accY accM = bucketRows y2 rows accY accM := by
  intro rows
  induction rows with
  | nil => intro accY accM; rfl
  | cons r rs ih =>
    intro accY accM
    show (match monthKey r with
          | none => none
          | some mk => bucketRows y1 rs (groupAppend accY (rowYear r y1) r) (groupAppend accM mk r)) =
         (match monthKey r with
          | none => none
          | some mk => bucketRows y2 rs (groupAppend accY (rowYear r y2) r) (groupAppend accM mk r))
    cases hmk : monthKey r with
    | none => rfl
    | some mk =>
      rw [rowYear_indep hmk y1 y2]
      exact ih _ _

/-- **C9**: archive generation is deterministic — two runs of
`write_archives` over the same rows and names produce identical year
buckets, month buckets and index artifacts, whatever the wall-clock
inputs (`generated_at` string and current year) of each run; only the
`generated_at` field can differ. -/
theorem write_archives_deterministic (rows : List Row) (names : List String)
    (t1 t2 : String) (y1 y2 : Int) :
    stripGen (writeArchives rows names t1 y1) = stripGen (writeArchives rows names t2 y2) := by
  unfold writeArchives
  rw [bucketRows_indep y1 y2 rows [] []]
  cases hbk : bucketRows y2 rows [] [] with
  | none => rfl
  | some bs =>
    obtain ⟨byY, byM⟩ := bs
    cases hy : mapPayload names byY with
    | none => simp only [hy]
    | some ys =>
      cases hm : mapPayload names byM with
      | none => simp only [hy, hm]
      | some msx => simp only [hy, hm]; rfl

/-! #### C2: characterizing the buckets -/

/-- Lookup a bucket's rows (`by_year[key]` / `by_month[key]`), empty when
the key is absent. -/
def groupGet {K : Type} [BEq K] (acc : List (K × List Row)) (k : K) : List Row :=
  ((acc.find? (fun e => e.1 == k)).map (fun e => e.2)).getD []

theorem groupGet_cons {K : Type} [BEq K] [LawfulBEq K] [DecidableEq K]
    {e : K × List Row} {t : List (K × List Row)} {k : K} :
    groupGet (e :: t) k = if e.1 = k then e.2 else groupGet t k := by
  by_cases h : e.1 = k
  · simp [groupGet, List.find?_cons, h]
  · simp [groupGet, List.find?_cons, h]

theorem groupGet_upd_self {K : Type} [BEq K] [LawfulBEq K] [DecidableEq K] {k : K} {r : Row} :
    ∀ (acc : List (K × List Row)), (acc.any (fun e => e.1 == k)) = true →
    groupGet (acc.map (fun e => if e.1 == k then (e.1, e.2 ++ [r]) else e)) k =
      groupGet acc k ++ [r] := by
  intro acc
  induction acc with
  | nil => intro h; simp at h
  | cons e t ih =>
    intro h
    rw [List.map_cons]
    by_cases he : e.1 = k
    · rw [show (if (e.1 == k) = true then (e.1, e.2 ++ [r]) else e) = (e.1, e.2 ++ [r])
        from by simp [he]]
      rw [groupGet_cons, groupGet_cons, if_pos he, if_pos he]
    · rw [show (if (e.1 == k) = true then (e.1, e.2 ++ [r]) else e) = e from by simp [he]]
      rw [groupGet_cons, groupGet_cons, if_neg he, if_neg he]
      apply ih
      rw [List.any_cons] at h
      rcases Bool.or_eq_true_iff.mp h with h1 | h2
      · exact absurd (by simpa using h1) he
      · exact h2

theorem groupGet_upd_ne {K : Type} [BEq K] [LawfulBEq K] [DecidableEq K] {k k' : K} {r : Row}
    (hne : ¬k' = k) :
    ∀ (acc : List (K × List Row)),
    groupGet (acc.map (fun e => if e.1 == k then (e.1, e.2 ++ [r]) else e)) k' =
      groupGet acc k' := by
  intro acc
  induction acc with
  | nil => rfl
  | cons e t ih =>
    rw [List.map_cons]
    by_cases he : e.1 = k
    · rw [show (if (e.1 == k) = true then (e.1, e.2 ++ [r]) else e) = (e.1, e.2 ++ [r])
        from by simp [he]]
      rw [groupGet_cons, groupGet_cons]
      have hek : ¬e.1 = k' := by rw [he]; exact fun hc => hne hc.symm
      rw [if_neg hek, if_neg hek]
      exact ih
    · rw [show (if (e.1 == k) = true then (e.1, e.2 ++ [r]) else e) = e from by simp [he]]
      rw [groupGet_cons, groupGet_cons]
      by_cases hek : e.1 = k'
      · rw [if_pos hek, if_pos hek]
      · rw [if_neg hek, if_neg hek]
        exact ih

theorem groupGet_append_absent {K : Type} [BEq K] [LawfulBEq K] [DecidableEq K]
    (k k' : K) (r : Row) :
    ∀ (acc : List (K × List Row)), (acc.any (fun e => e.1 == k)) = false →
    groupGet (acc ++ [(k, [r])]) k' = groupGet acc k' ++ (if k = k' then [r] else []) := by
  intro acc
  induction acc with
  | nil =>
    intro _
    simp only [List.nil_append]
    rw [groupGet_cons]
    by_cases h : k = k'
    · rw [if_pos h, if_pos h]; rfl
    · rw [if_neg h, if_neg h]; rfl
  | cons e t ih =>
    intro habs
    rw [List.any_cons] at habs
    have hparts := Bool.or_eq_false_iff.mp habs
    have hek : ¬e.1 = k := by simpa using hparts.1
    rw [List.cons_append, groupGet_cons, groupGet_cons]
    by_cases h : e.1 = k'
    · have hkk : ¬k = k' := fun hc => hek (h.trans hc.symm)
      rw [if_pos h, if_pos h, if_neg hkk, List.append_nil]
    · rw [if_neg h, if_neg h]
      exact ih hparts.2

/-- The uniform effect of `setdefault(key, []).append(row)` on lookups. -/
theorem groupGet_groupAppend {K : Type} [BEq K] [LawfulBEq K] [DecidableEq K]
    (acc : List (K × List Row)) (k k' : K) (r : Row) :
    groupGet (groupAppend acc k r) k' =
      groupGet acc k' ++ (if k = k' then [r] else []) := by
  unfold groupAppend
  by_cases hpres : (acc.any (fun e => e.1 == k)) = true
  · rw [if_pos hpres]
    by_cases hk : k = k'
    · subst hk
      rw [groupGet_upd_self acc hpres, if_pos rfl]
    · rw [groupGet_upd_ne (fun hc => hk hc.symm) acc, if_neg hk, List.append_nil]
  · rw [if_neg hpres]
    exact groupGet_append_absent k k' r acc (Bool.eq_false_iff.mpr hpres)

theorem groupAppend_keys_nodup {K : Type} [BEq K] [LawfulBEq K]
    {acc : List (K × List Row)} {k : K} {r : Row}
    (h : (acc.map (fun e => e.1)).Nodup) :
    ((groupAppend acc k r).map (fun e => e.1)).Nodup := by
  unfold groupAppend
  by_cases hpres : (acc.any (fun e => e.1 == k)) = true
  · rw [if_pos hpres]
    have hkeys : (acc.map (fun e => if e.1 == k then (e.1, e.2 ++ [r]) else e)).map
        (fun e => e.1) = acc.map (fun e => e.1) := by
      rw [List.map_map]
      apply List.map_congr_left
      intro a _
      by_cases ha : a.1 = k <;> simp [ha]
    rw [hkeys]
    exact h
  · rw [if_neg hpres]
    simp only [List.map_append, List.map_cons, List.map_nil]
    rw [List.nodup_append]
    have hk : k ∉ acc.map (fun e => e.1) := by
      intro hc
      rcases List.mem_map.mp hc with ⟨e, he, heq⟩
      apply hpres
      refine List.any_eq_true.mpr ⟨e, he, ?_⟩
      simp [heq]
    refine ⟨h, List.nodup_singleton k, ?_⟩
    intro a ha hb
    have ha' : a = k := by simpa using hb
    subst ha'
    exact hk ha

theorem groupGet_of_mem {K : Type} [BEq K] [LawfulBEq K] [DecidableEq K] :
    ∀ (acc : List (K × List Row)) (k : K) (rws : List Row),
    (acc.map (fun e => e.1)).Nodup → (k, rws) ∈ acc → groupGet acc k = rws := by
  intro acc
  induction acc with
  | nil => intro k rws _ h; cases h
  | cons e t ih =>
    intro k rws hnd hmem
    rw [List.map_cons] at hnd
    rcases List.mem_cons.mp hmem with h1 | h2
    · rw [groupGet_cons, ← h1, if_pos rfl]
    · have hkmem : k ∈ t.map (fun e => e.1) := List.mem_map.mpr ⟨(k, rws), h2, rfl⟩
      have hne : ¬e.1 = k := by
        intro hc
        have hhead : e.1 ∉ t.map (fun e => e.1) := by
          simpa using (List.nodup_cons.mp hnd).1
        rw [hc] at hhead
        exact hhead hkmem
      rw [groupGet_cons, if_neg hne]
      exact ih k rws (List.nodup_cons.mp hnd).2 h2

theorem bucketRows_spec (nowY : Int) :
    ∀ (rows : List Row) (accY : List (Int × List Row)) (accM : List ((Int × Int) × List Row))
      (bY : List (Int × List Row)) (bM : List ((Int × Int) × List Row)),
    bucketRows nowY rows accY accM = some (bY, bM) →
    (∀ r ∈ rows, (monthKey r).isSome) ∧
    (∀ y, groupGet bY y = groupGet accY y ++ rows.filter (fun r => rowYear r nowY == y)) ∧
    (∀ mk, groupGet bM mk =
      groupGet accM mk ++ rows.filter (fun r => monthKey r == some mk)) ∧
    ((accY.map (fun e => e.1)).Nodup → (bY.map (fun e => e.1)).Nodup) ∧
    ((accM.map (fun e => e.1)).Nodup → (bM.map (fun e => e.1)).Nodup) := by
  intro rows
  induction rows with
  | nil =>
    intro accY accM bY bM h
    have h' : accY = bY ∧ accM = bM := by simpa [bucketRows] using h
    obtain ⟨rfl, rfl⟩ := h'
    refine ⟨by simp, ?_, ?_, fun a => a, fun a => a⟩
    · intro y; simp
    · intro mk; simp
  | cons r rs ih =>
    intro accY accM bY bM h
    cases hmk : monthKey r with
    | none => simp [bucketRows, hmk] at h
    | some mk0 =>
      have h2 : bucketRows nowY rs (groupAppend accY (rowYear r nowY) r)
          (groupAppend accM mk0 r) = some (bY, bM) := by
        simpa [bucketRows, hmk] using h
      obtain ⟨hsome, hy, hm, hndY, hndM⟩ := ih _ _ _ _ h2
      refine ⟨?_, ?_, ?_, ?_, ?_⟩
      · intro x hx
        rcases List.mem_cons.mp hx with h1 | h1
        · subst h1; simp [hmk]
        · exact hsome x h1
      · intro y
        rw [hy y, groupGet_groupAppend, List.filter_cons]
        by_cases hcy : rowYear r nowY = y
        · rw [if_pos hcy, if_pos (show (rowYear r nowY == y) = true by simp [hcy])]
          simp
        · rw [if_neg hcy, if_neg (show ¬(rowYear r nowY == y) = true by simp [hcy])]
          simp
      · intro mk
        rw [hm mk, groupGet_groupAppend, List.filter_cons]
        by_cases hcm : mk0 = mk
        · rw [if_pos hcm, if_pos (show (monthKey r == some mk) = true by simp [hmk, hcm])]
          simp
        · rw [if_neg hcm, if_neg (show ¬(monthKey r == some mk) = true by simp [hmk, hcm])]
          simp
      · intro hnd; exact hndY (groupAppend_keys_nodup hnd)
      · intro hnd; exact hndM (groupAppend_keys_nodup hnd)

/-! #### C2: multiset bookkeeping -/

theorem coe_flatMap {α β : Type} (l : List α) (f : α → List β) :
    (↑(l.flatMap f) : Multiset β) = (l.map (fun a => (↑(f a) : Multiset β))).sum := by
  induction l with
  | nil => rfl
  | cons a t ih =>
    rw [List.flatMap_cons, List.map_cons, List.sum_cons, ← ih]
    exact_mod_cast rfl

theorem coe_flatMap_bind {α β : Type} (l : List α) (f : α → List β) :
    (↑(l.flatMap f) : Multiset β) = (↑l : Multiset α).bind (fun a => (↑(f a) : Multiset β)) := by
  induction l with
  | nil => rfl
  | cons a t ih =>
    rw [List.flatMap_cons]
    have h1 : (↑(f a ++ t.flatMap f) : Multiset β) =
        (↑(f a) : Multiset β) + ↑(t.flatMap f) := by
      exact_mod_cast rfl
    rw [h1, ih]
    have h2 : (↑(a :: t) : Multiset α) = a ::ₘ (↑t : Multiset α) := rfl
    rw [h2, Multiset.cons_bind]

theorem sum_map_add {α M : Type} [AddCommMonoid M] (l : List α) (f g : α → M) :
    (l.map (fun a => f a + g a)).sum = (l.map f).sum + (l.map g).sum := by
  induction l with
  | nil => simp
  | cons a t ih =>
    simp only [List.map_cons, List.sum_cons, ih]
    abel

theorem sum_ite_eq_single {α M : Type} [DecidableEq α] [AddCommMonoid M] :
    ∀ (l : List α), l.Nodup → ∀ (a0 : α) (s : M), a0 ∈ l →
    (l.map (fun a => if a0 = a then s else 0)).sum = s := by
  intro l
  induction l with
  | nil => intro _ a0 s hmem; cases hmem
  | cons b t ih =>
    intro hnd a0 s hmem
    rcases List.mem_cons.mp hmem with h1 | h2
    · subst h1
      rw [List.map_cons, List.sum_cons, if_pos rfl]
      have hz : ∀ a ∈ t, (if a0 = a then s else 0) = 0 := by
        intro a ha
        rw [if_neg]
        intro hc
        subst hc
        exact (List.nodup_cons.mp hnd).1 ha
      rw [List.map_congr_left hz]
      simp
    · have hb : ¬a0 = b := by
        intro hc
        subst hc
        exact (List.nodup_cons.mp hnd).1 h2
      rw [List.map_cons, List.sum_cons, if_neg hb,
        ih (List.nodup_cons.mp hnd).2 a0 s h2, zero_add]

theorem sum_ite_eq_zero {α M : Type} [DecidableEq α] [AddCommMonoid M] :
    ∀ (l : List α) (a0 : α) (s : M), a0 ∉ l →
    (l.map (fun a => if a0 = a then s else 0)).sum = 0 := by
  intro l
  induction l with
  | nil => intro a0 s _; rfl
  | cons b t ih =>
    intro a0 s hmem
    have hb : ¬a0 = b := fun hc => hmem (hc ▸ List.mem_cons_self b t)
    rw [List.map_cons, List.sum_cons, if_neg hb,
      ih a0 s (fun hc => hmem (List.mem_cons_of_mem b hc)), add_zero]

theorem sum_map_bind {α β γ : Type} (l : List α) (S : α → Multiset β) (C : β → Multiset γ) :
    (l.map (fun a => (S a).bind C)).sum = ((l.map S).sum).bind C := by
  induction l with
  | nil => simp
  | cons a t ih => simp [ih, Multiset.add_bind]

/-- Splitting the rows of one year across that year's month buckets is a
partition: summing the month-bucket row multisets recovers exactly the
rows whose month key carries that year. -/
theorem filter_partition (yr : Int) :
    ∀ (rows : List Row) (K : List (Int × Int)), K.Nodup →
    (∀ r ∈ rows, ∀ mk, monthKey r = some mk → mk.1 = yr → mk ∈ K) →
    (∀ r ∈ rows, (monthKey r).isSome) →
    ((K.filter (fun k => k.1 == yr)).map
        (fun k => (↑(rows.filter (fun r => monthKey r == some k)) : Multiset Row))).sum =
      (↑(rows.filter (fun r => (monthKey r).map (fun p => p.1) == some yr)) : Multiset Row) := by
  intro rows
  induction rows with
  | nil =>
    intro K _ _ _
    have hz : ∀ k ∈ K.filter (fun k => k.1 == yr),
        (↑(List.filter (fun r => monthKey r == some k) []) : Multiset Row) = 0 := by
      intro k _; rfl
    rw [List.map_congr_left hz]
    simp
  | cons r rs ih =>
    intro K hnd hcov hsome
    obtain ⟨mk0, hmk0⟩ := Option.isSome_iff_exists.mp (hsome r (by simp))
    have hstep : ∀ k ∈ K.filter (fun k => k.1 == yr),
        (↑(List.filter (fun r' => monthKey r' == some k) (r :: rs)) : Multiset Row) =
        (if mk0 = k then ({r} : Multiset Row) else 0) +
          ↑(List.filter (fun r' => monthKey r' == some k) rs) := by
      intro k _
      rw [List.filter_cons]
      by_cases hk : mk0 = k
      · rw [if_pos (show (monthKey r == some k) = true by simp [hmk0, hk]), if_pos hk]
        rw [Multiset.singleton_add]
        rfl
      · rw [if_neg (show ¬(monthKey r == some k) = true by simp [hmk0, hk]),
          if_neg hk, zero_add]
    rw [List.map_congr_left hstep, sum_map_add]
    have hK : (K.filter (fun k => k.1 == yr)).Nodup := hnd.filter _
    have hih := ih K hnd (fun x hx => hcov x (by simp [hx]))
      (fun x hx => hsome x (by simp [hx]))
    by_cases hy0 : mk0.1 = yr
    · have hmem : mk0 ∈ K.filter (fun k => k.1 == yr) := by
        rw [List.mem_filter]
        exact ⟨hcov r (by simp) mk0 hmk0 hy0, by simp [hy0]⟩
      rw [sum_ite_eq_single _ hK mk0 _ hmem, List.filter_cons,
        if_pos (show ((monthKey r).map (fun p => p.1) == some yr) = true by simp [hmk0, hy0]),
        hih, Multiset.singleton_add]
      rfl
    · have hnmem : mk0 ∉ K.filter (fun k => k.1 == yr) := by
        rw [List.mem_filter]
        intro hc
        exact hy0 (by simpa using hc.2)
      rw [sum_ite_eq_zero _ mk0 _ hnmem, zero_add, List.filter_cons,
        if_neg (show ¬((monthKey r).map (fun p => p.1) == some yr) = true by simp [hmk0, hy0]),
        hih]

theorem mem_keys_of_groupGet_ne {K : Type} [BEq K] [LawfulBEq K]
    {acc : List (K × List Row)} {k : K} (h : groupGet acc k ≠ []) :
    k ∈ acc.map (fun e => e.1) := by
  unfold groupGet at h
  cases hf : acc.find? (fun e => e.1 == k) with
  | none => rw [hf] at h; simp at h
  | some e =>
    have hp := List.find?_some hf
    have hmem := List.mem_of_find?_eq_some hf
    have he : e.1 = k := by simpa using hp
    exact he ▸ List.mem_map_of_mem _ hmem

theorem mapPayload_some {names : List String} {K : Type} :
    ∀ (l : List (K × List Row)) (l' : List (K × SeriesMap)),
    mapPayload names l = some l' →
    l' = l.map (fun e => (e.1, (buildSeriesMap e.2 names).getD [])) ∧
    ∀ e ∈ l, (buildSeriesMap e.2 names).isSome := by
  intro l
  induction l with
  | nil =>
    intro l' h
    have h' : [] = l' := by simpa [mapPayload] using h
    subst h'
    exact ⟨rfl, by intro e he; cases he⟩
  | cons e t ih =>
    intro l' h
    obtain ⟨k0, rws0⟩ := e
    cases hbs : buildSeriesMap rws0 names with
    | none => simp [mapPayload, hbs] at h
    | some sm =>
      cases hrest : mapPayload names t with
      | none => simp [mapPayload, hbs, hrest] at h
      | some rest =>
        have hl' : (k0, sm) :: rest = l' := by simpa [mapPayload, hbs, hrest] using h
        subst hl'
        obtain ⟨ha, hb⟩ := ih rest hrest
        constructor
        · rw [List.map_cons, ← ha]
          simp [hbs]
        · intro x hx
          rcases List.mem_cons.mp hx with h1 | h2
          · subst h1; simp [hbs]
          · exact hb x h2

theorem rowTs_isSome_of_monthKey {r : Row} {mk : Int × Int}
    (h : monthKey r = some mk) : (rowTs r).isSome := by
  unfold monthKey at h
  cases hts : rowTs r with
  | none => rw [hts] at h; cases h
  | some ms => simp

theorem buildSeriesMap_find {rws : List Row} {names : List String} {n : String}
    {sm : SeriesMap} (hms : ∀ r ∈ rws, (rowTs r).isSome) (hnd : names.Nodup)
    (hn : n ∈ names) (hsm : buildSeriesMap rws names = some sm) :
    seriesFind sm n = some (rws.flatMap (fun r => rowContrib names r n)) := by
  have hinit : seriesFind (initSeries names) n = some [] := by
    rw [initSeries_nodup hnd]
    exact seriesFind_init hn
  have := buildRows_find rws (initSeries names) [] hms hinit sm hsm
  simpa using this

theorem filter_of_map {α β : Type} (f : α → β) (p : β → Bool) (l : List α) :
    (l.map f).filter p = (l.filter (fun a => p (f a))).map f := by
  induction l with
  | nil => rfl
  | cons a t ih =>
    rw [List.map_cons, List.filter_cons, List.filter_cons]
    by_cases h : p (f a) = true
    · rw [if_pos h, if_pos h, List.map_cons, ih]
    · rw [if_neg h, if_neg h, ih]

theorem flatMap_of_map {α β γ : Type} (f : α → β) (g : β → List γ) (l : List α) :
    (l.map f).flatMap g = l.flatMap (fun a => g (f a)) := by
  induction l with
  | nil => rfl
  | cons a t ih => rw [List.map_cons, List.flatMap_cons, List.flatMap_cons, ih]

theorem flatMap_congr {α β : Type} {l : List α} {f g : α → List β}
    (h : ∀ a ∈ l, f a = g a) : l.flatMap f = l.flatMap g := by
  induction l with
  | nil => rfl
  | cons a t ih =>
    rw [List.flatMap_cons, List.flatMap_cons, h a (by simp),
      ih (fun x hx => h x (by simp [hx]))]

/-- **C2 (amended)**: archive round-trip.  For any history whose rows all
carry consistent timestamps — the partition year `row_year` derives
(preferring the first four characters of the ISO string) agrees with the
UTC year of `timestamp_ms` — and whose archives are produced
successfully, the multiset union of the points of all monthly buckets of
a year equals that year's yearly bucket's points, per (distinct) series
name.  (The original claim fails without the consistency condition
because yearly buckets key on `row_year` while monthly buckets key on
`timestamp_ms`.) -/
theorem archive_round_trip (rows : List Row) (names : List String)
    (nowIso : String) (nowYear : Int) (out : ArchiveOut)
    (hout : writeArchives rows names nowIso nowYear = some out)
    (hnd : names.Nodup)
    (hcons : ∀ r ∈ rows, ∀ mk, monthKey r = some mk → rowYear r nowYear = mk.1) :
    ∀ e ∈ out.yearly, ∀ n ∈ names,
      (↑((out.monthly.filter (fun b => b.1.1 == e.1)).flatMap
          (fun b => (seriesFind b.2 n).getD [])) : Multiset (Int × Int)) =
      (↑((seriesFind e.2 n).getD []) : Multiset (Int × Int)) := by
  unfold writeArchives at hout
  cases hbk : bucketRows nowYear rows [] [] with
  | none => simp [hbk] at hout
  | some bb =>
    obtain ⟨byY, byM⟩ := bb
    simp only [hbk] at hout
    cases hpy : mapPayload names byY with
    | none => simp [hpy] at hout
    | some ys =>
      cases hpm : mapPayload names byM with
      | none => simp [hpy, hpm] at hout
      | some msx =>
        simp only [hpy, hpm, Option.some.injEq] at hout
        subst hout
        obtain ⟨hsome, hgy, hgm, hndY, hndM⟩ :=
          bucketRows_spec nowYear rows [] [] byY byM hbk
        have hndYk : (byY.map (fun e => e.1)).Nodup := hndY (by simp)
        have hndMk : (byM.map (fun e => e.1)).Nodup := hndM (by simp)
        obtain ⟨hys_eq, hys_some⟩ := mapPayload_some byY ys hpy
        obtain ⟨hms_eq, hms_some⟩ := mapPayload_some byM msx hpm
        subst hys_eq
        subst hms_eq
        intro e he n hn
        obtain ⟨⟨yr, yrws⟩, hyMem, rfl⟩ := List.mem_map.mp he
        have h1 := groupGet_of_mem byY yr yrws hndYk hyMem
        rw [hgy yr] at h1
        have hyrws : yrws = rows.filter (fun r => rowYear r nowYear == yr) := by
          simpa using h1.symm
        have hms_y : ∀ r ∈ yrws, (rowTs r).isSome := by
          intro r hr
          rw [hyrws] at hr
          obtain ⟨mk0, hmk0⟩ :=
            Option.isSome_iff_exists.mp (hsome r (List.mem_filter.mp hr).1)
          exact rowTs_isSome_of_monthKey hmk0
        obtain ⟨smy, hsmy⟩ := Option.isSome_iff_exists.mp (hys_some (yr, yrws) hyMem)
        have hfy : seriesFind ((buildSeriesMap yrws names).getD []) n =
            some (yrws.flatMap (fun r => rowContrib names r n)) := by
          rw [show (buildSeriesMap yrws names).getD [] = smy from by simp [hsmy]]
          exact buildSeriesMap_find hms_y hnd hn hsmy
        have hcov : ∀ r ∈ rows, ∀ mk, monthKey r = some mk → mk.1 = yr →
            mk ∈ byM.map (fun e => e.1) := by
          intro r hr mk hmk _
          apply mem_keys_of_groupGet_ne
          have hfil : r ∈ rows.filter (fun r => monthKey r == some mk) :=
            List.mem_filter.mpr ⟨hr, by simp [hmk]⟩
          rw [hgm mk]
          intro hc
          rw [show groupGet ([] : List ((Int × Int) × List Row)) mk = [] from rfl,
            List.nil_append] at hc
          rw [hc] at hfil
          cases hfil
        have hpoint : ∀ b ∈ byM.filter (fun b => b.1.1 == yr),
            (seriesFind ((buildSeriesMap b.2 names).getD []) n).getD [] =
              (rows.filter (fun r => monthKey r == some b.1)).flatMap
                (fun r => rowContrib names r n) := by
          intro b hb
          have hbM : b ∈ byM := List.mem_of_mem_filter hb
          have hb2 : b.2 = rows.filter (fun r => monthKey r == some b.1) := by
            have h2 := groupGet_of_mem byM b.1 b.2 hndMk (by simpa using hbM)
            rw [hgm b.1] at h2
            simpa using h2.symm
          have hmsb : ∀ r ∈ b.2, (rowTs r).isSome := by
            intro r hr
            rw [hb2] at hr
            obtain ⟨mk0, hmk0⟩ :=
              Option.isSome_iff_exists.mp (hsome r (List.mem_filter.mp hr).1)
            exact rowTs_isSome_of_monthKey hmk0
          obtain ⟨smb, hsmb⟩ := Option.isSome_iff_exists.mp (hms_some b hbM)
          rw [show (buildSeriesMap b.2 names).getD [] = smb from by simp [hsmb]]
          rw [buildSeriesMap_find hmsb hnd hn hsmb, Option.getD_some, hb2]
        have hLlist : ((byM.map (fun b : (Int × Int) × List Row =>
              (b.1, (buildSeriesMap b.2 names).getD []))).filter
              (fun b => b.1.1 == yr)).flatMap
              (fun b => (seriesFind b.2 n).getD []) =
            (byM.filter (fun b => b.1.1 == yr)).flatMap
              (fun b => (rows.filter (fun r => monthKey r == some b.1)).flatMap
                (fun r => rowContrib names r n)) := by
          rw [filter_of_map, flatMap_of_map]
          rw [show byM.filter (fun a =>
              ((a.1, (buildSeriesMap a.2 names).getD []) :
                (Int × Int) × SeriesMap).1.1 == yr) =
              byM.filter (fun b => b.1.1 == yr) from
            List.filter_congr (fun a _ => rfl)]
          exact flatMap_congr hpoint
        have hfc : ∀ r ∈ rows, (rowYear r nowYear == yr) =
            ((monthKey r).map (fun p => p.1) == some yr) := by
          intro r hr
          obtain ⟨mk0, hmk0⟩ := Option.isSome_iff_exists.mp (hsome r hr)
          rw [hmk0, hcons r hr mk0 hmk0]
          simp
        have hkeys_eq : (byM.filter (fun b => b.1.1 == yr)).map (fun e => e.1) =
            (byM.map (fun e => e.1)).filter (fun k => k.1 == yr) := by
          rw [filter_of_map (fun e : (Int × Int) × List Row => e.1)
            (fun k => k.1 == yr) byM]
        have hinner : ∀ b ∈ byM.filter (fun b => b.1.1 == yr),
            (↑((rows.filter (fun r => monthKey r == some b.1)).flatMap
              (fun r => rowContrib names r n)) : Multiset (Int × Int)) =
            ((fun k => (↑(rows.filter (fun r => monthKey r == some k)) : Multiset Row)) b.1).bind
              (fun r => (↑(rowContrib names r n) : Multiset (Int × Int))) := by
          intro b _
          exact coe_flatMap_bind _ _
        show (↑(((byM.map (fun b : (Int × Int) × List Row =>
            (b.1, (buildSeriesMap b.2 names).getD []))).filter
            (fun b => b.1.1 == yr)).flatMap
            (fun b => (seriesFind b.2 n).getD [])) : Multiset (Int × Int)) =
          (↑((seriesFind ((buildSeriesMap yrws names).getD []) n).getD []) :
            Multiset (Int × Int))
        rw [hLlist, hfy, Option.getD_some, hyrws, List.filter_congr hfc]
        rw [coe_flatMap, List.map_congr_left hinner]
        rw [show (byM.filter (fun b => b.1.1 == yr)).map
            (fun b => ((fun k => (↑(rows.filter (fun r => monthKey r == some k)) :
              Multiset Row)) b.1).bind
              (fun r => (↑(rowContrib names r n) : Multiset (Int × Int)))) =
            ((byM.filter (fun b => b.1.1 == yr)).map (fun e => e.1)).map
            (fun k => ((↑(rows.filter (fun r => monthKey r == some k)) : Multiset Row)).bind
              (fun r => (↑(rowContrib names r n) : Multiset (Int × Int)))) from by
          rw [List.map_map]
          exact List.map_congr_left (fun a _ => rfl)]
        rw [hkeys_eq, sum_map_bind,
          filter_partition yr rows (byM.map (fun e => e.1)) hndMk hcov hsome]
        rw [coe_flatMap_bind]

/-- A history with one consistent record per month of 2024 plus a 13th
record whose ISO year (2024) disagrees with the UTC year of its
`timestamp_ms` (2025-01-01). -/
def exRowsC2bad : List Row :=
  [[("timestamp_iso", CVal.cstr "2024-01-01T00:00:00+00:00"),
    ("timestamp_ms", CVal.cint 1704067200000), ("Total", CVal.cint 1)],
   [("timestamp_iso", CVal.cstr "2024-02-01T00:00:00+00:00"),
    ("timestamp_ms", CVal.cint 1706745600000), ("Total", CVal.cint 2)],
   [("timestamp_iso", CVal.cstr "2024-03-01T00:00:00+00:00"),
    ("timestamp_ms", CVal.cint 1709251200000), ("Total", CVal.cint 3)],
   [("timestamp_iso", CVal.cstr "2024-04-01T00:00:00+00:00"),
    ("timestamp_ms", CVal.cint 1711929600000), ("Total", CVal.cint 4)],
   [("timestamp_iso", CVal.cstr "2024-05-01T00:00:00+00:00"),
    ("timestamp_ms", CVal.cint 1714521600000), ("Total", CVal.cint 5)],
   [("timestamp_iso", CVal.cstr "2024-06-01T00:00:00+00:00"),
    ("timestamp_ms", CVal.cint 1717200000000), ("Total", CVal.cint 6)],
   [("timestamp_iso", CVal.cstr "2024-07-01T00:00:00+00:00"),
    ("timestamp_ms", CVal.cint 1719792000000), ("Total", CVal.cint 7)],
   [("timestamp_iso", CVal.cstr "2024-08-01T00:00:00+00:00"),
    ("timestamp_ms", CVal.cint 1722470400000), ("Total", CVal.cint 8)],
   [("timestamp_iso", CVal.cstr "2024-09-01T00:00:00+00:00"),
    ("timestamp_ms", CVal.cint 1725148800000), ("Total", CVal.cint 9)],
   [("timestamp_iso", CVal.cstr "2024-10-01T00:00:00+00:00"),
    ("timestamp_ms", CVal.cint 1727740800000), ("Total", CVal.cint 10)],
   [("timestamp_iso", CVal.cstr "2024-11-01T00:00:00+00:00"),
    ("timestamp_ms", CVal.cint 1730419200000), ("Total", CVal.cint 11)],
   [("timestamp_iso", CVal.cstr "2024-12-01T00:00:00+00:00"),
    ("timestamp_ms", CVal.cint 1733011200000), ("Total", CVal.cint 12)],
   [("timestamp_iso", CVal.cstr "2024-12-31T23:59:59+00:00"),
    ("timestamp_ms", CVal.cint 1735689600000), ("Total", CVal.cint 13)]]

/-- **C2 (counterexample)**: `exRowsC2bad` has at least one record per
month of 2024, yet the union of the 2024 monthly buckets' points (12
points) differs from the 2024 yearly bucket's points (13 points): the
13th row lands in yearly bucket 2024 (keyed by `row_year`, which prefers
the ISO string) but in monthly bucket 2025-01 (keyed by
`timestamp_ms`). -/
theorem archive_round_trip_counterexample :
    (∀ m ∈ ([1, 2, 3, 4, 5, 6, 7, 8, 9, 10, 11, 12] : List Int),
      ∃ r ∈ exRowsC2bad, monthKey r = some ((2024 : Int), m)) ∧
    (writeArchives exRowsC2bad ["Total"] "t" 2025).isSome = true ∧
    ∃ e ∈ ((writeArchives exRowsC2bad ["Total"] "t" 2025).map
        (fun a => a.yearly)).getD [],
      e.1 = 2024 ∧
        (↑(((((writeArchives exRowsC2bad ["Total"] "t" 2025).map
            (fun a => a.monthly)).getD []).filter (fun b => b.1.1 == e.1)).flatMap
            (fun b => (seriesFind b.2 "Total").getD [])) : Multiset (Int × Int)) ≠
        (↑((seriesFind e.2 "Total").getD []) : Multiset (Int × Int)) := by
  refine ⟨by decide, by decide, ?_⟩
  decide

/-- A small history with consistent timestamps (January and December
2024), used to witness the amended C2. -/
def exRowsC2ok : List Row :=
  [[("timestamp_iso", CVal.cstr "2024-01-15T00:00:00+00:00"),
    ("timestamp_ms", CVal.cint 1705276800000), ("Total", CVal.cint 1)],
   [("timestamp_iso", CVal.cstr "2024-12-01T00:00:00+00:00"),
    ("timestamp_ms", CVal.cint 1733011200000), ("Total", CVal.cint 2)]]

/-- Witness for the amended C2 at a concrete consistent history. -/
theorem archive_round_trip_witness :
    ∃ out, writeArchives exRowsC2ok ["Total"] "2026-01-01T00:00:00+00:00" 2026 = some out ∧
      ∀ e ∈ out.yearly, ∀ n ∈ (["Total"] : List String),
        (↑((out.monthly.filter (fun b => b.1.1 == e.1)).flatMap
            (fun b => (seriesFind b.2 n).getD [])) : Multiset (Int × Int)) =
        (↑((seriesFind e.2 n).getD []) : Multiset (Int × Int)) := by
  have hcons : ∀ r ∈ exRowsC2ok, ∀ mk, monthKey r = some mk →
      rowYear r 2026 = mk.1 := by
    intro r hr mk hmk
    have hall : ∀ r ∈ exRowsC2ok,
        (monthKey r).map (fun p => p.1) = some (rowYear r 2026) := by decide
    have hone := hall r hr
    rw [hmk] at hone
    simpa using hone.symm
  cases hw : writeArchives exRowsC2ok ["Total"] "2026-01-01T00:00:00+00:00" 2026 with
  | none => exact absurd hw (by decide)
  | some out =>
    exact ⟨out, rfl,
      archive_round_trip _ _ _ _ out hw (by decide) hcons⟩

/-! ### JSON values and `safe_int` (source lines 106–113)

A scalar JSON value as the mount parser sees it.  Container values
(arrays/objects) do not occur in the fields this pipeline reads and are
not modelled (they would behave like any other non-coercible value). -/

inductive JValue where
  | jnull
  | jbool (b : Bool)
  | jint (n : Int)
  | jstr (s : String)
deriving DecidableEq, Repr

/-- Python truthiness of a JSON value. -/
def pyTruthy : JValue → Bool
  | .jnull => false
  | .jbool b => b
  | .jint n => !(n == 0)
  | .jstr s => !(s == "")

/-- Python `int(v)` over a JSON value; `none` models
`ValueError`/`TypeError`. -/
def pyIntJ : JValue → Option Int
  | .jnull => none
  | .jbool b => some (if b then 1 else 0)
  | .jint n => some n
  | .jstr s => pyIntStr s

/-- `safe_int(value, default)`: `None` returns the default, otherwise
`int(value)` with failures mapped to the default. -/
def safe_int (value : JValue) (default : Option Int) : Option Int :=
  match value with
  | .jnull => default
  | v =>
    match pyIntJ v with
    | some n => some n
    | none => default

theorem safe_int_of_pyIntJ_none {v : JValue} {d : Option Int}
    (h : pyIntJ v = none) : safe_int v d = d := by
  cases v with
  | jnull => rfl
  | jbool b => simp [pyIntJ] at h
  | jint n => simp [pyIntJ] at h
  | jstr s =>
    simp only [pyIntJ] at h
    show (match pyIntStr s with | some n => some n | none => d) = d
    rw [h]

theorem safe_int_default_isSome (v : JValue) (d : Int) :
    (safe_int v (some d)).isSome := by
  cases v with
  | jnull => rfl
  | jbool b => simp [safe_int, pyIntJ]
  | jint n => rfl
  | jstr s =>
    cases h : pyIntStr s with
    | none => simp [safe_int, pyIntJ, h]
    | some n => simp [safe_int, pyIntJ, h]

/-- `safe_int(value, 0)` materialized as an integer (it always returns
one; the `getD` only discharges the `Option` type). -/
def safe_int0 (value : JValue) : Int := (safe_int value (some 0)).getD 0

/-- A JSON source object (Python dict). -/
abbrev JObj := List (String × JValue)

/-- `obj.get(k)` (`none` = key absent). -/
def jget (o : JObj) (k : String) : Option JValue :=
  (o.find? (fun e => e.1 == k)).map (fun e => e.2)

/-- `obj.get(k)` with Python's `None` for a missing key. -/
def jgetD (o : JObj) (k : String) : JValue :=
  (jget o k).getD JValue.jnull

/-! ### `parse_mount_source` (source lines 188–238) -/

def isAsciiLetter (c : Char) : Bool :=
  (65 ≤ c.toNat && c.toNat ≤ 90) || (97 ≤ c.toNat && c.toNat ≤ 122)

def isSchemeChar (c : Char) : Bool :=
  isAsciiLetter c || isDigitCh c || c == '+' || c == '-' || c == '.'

/-- Drop a leading `scheme:` (letter-initial scheme), as `urlparse`
does. -/
def stripScheme (l : List Char) : List Char :=
  match l with
  | [] => []
  | c :: rest =>
    if isAsciiLetter c then
      match (c :: rest).dropWhile isSchemeChar with
      | ':' :: tail => tail
      | _ => c :: rest
    else c :: rest

/-- Drop a leading `//netloc`. -/
def stripNetloc (l : List Char) : List Char :=
  match l with
  | '/' :: '/' :: rest => rest.dropWhile (fun c => !(c == '/'))
  | _ => l

/-- `urllib.parse.urlparse(url).path`: strip fragment, query, scheme and
network location; what remains is the path. -/
def extractPath (url : String) : String :=
  ⟨stripNetloc (stripScheme ((url.toList.takeWhile
      (fun c => !(c == '#'))).takeWhile (fun c => !(c == '?'))))⟩

/-- The per-mount metric dict `parse_mount_source` builds.  `listeners`
is an integer (`safe_int` with default 0 always yields one); the HTML
parser fills only the first four fields, the rest model `.get` misses as
`None`. -/
structure MountMetric where
  mountpoint : JValue
  listeners : Int
  listener_peak : Option Int
  title : JValue
  description : JValue
  bitrate : Option Int
  genre : JValue
  stream_start : JValue
  connected : Option Int
deriving DecidableEq, Repr

/-- The mountpoint-resolution steps of `parse_mount_source` (lines
202–222): path of a truthy `listenurl` (a non-string truthy value makes
`urlparse` and the regex fallback raise, which the outer handler turns
into `None` for the whole source); if that is falsy, the raw `"mount"`
field; if still falsy, the source is skipped. -/
def resolveMount (source : JObj) : Option JValue :=
  let listenurl := jgetD source "listenurl"
  let mp0 : Option JValue :=
    if pyTruthy listenurl then
      match listenurl with
      | .jstr s => some (.jstr (extractPath s))
      | _ => none
    else some .jnull
  match mp0 with
  | none => none
  | some mpv =>
    let mp1 := if pyTruthy mpv then mpv else jgetD source "mount"
    if pyTruthy mp1 then some mp1 else none

/-- `parse_mount_source(source)` (source lines 188–238). -/
def parse_mount_source (source : JObj) : Option MountMetric :=
  if source.isEmpty then none
  else
    match resolveMount source with
    | none => none
    | some mp =>
      some {
        mountpoint := mp,
        listeners := safe_int0 (jgetD source "listeners"),
        listener_peak := safe_int (jgetD source "listener_peak") none,
        title := if pyTruthy (jgetD source "title") then jgetD source "title"
                 else jgetD source "yp_currently_playing",
        description := jgetD source "server_description",
        bitrate := safe_int (jgetD source "bitrate") none,
        genre := jgetD source "genre",
        stream_start := jgetD source "stream_start_iso8601",
        connected := safe_int (jgetD source "connected") none }

/-- **C5**: for every JSON source object that parses to a metric
(i.e. with a resolvable mountpoint): a missing or non-numeric
`listeners` field yields 0; the string `"7"` yields the integer 7
(lenient coercion); a missing `listener_peak` yields an absent peak, not
a defaulted number. -/
theorem parse_mount_source_defaults (source : JObj) (m : MountMetric)
    (hm : parse_mount_source source = some m) :
    (jget source "listeners" = none → m.listeners = 0) ∧
    (∀ v, jget source "listeners" = some v → pyIntJ v = none → m.listeners = 0) ∧
    (jget source "listeners" = some (JValue.jstr "7") → m.listeners = 7) ∧
    (jget source "listener_peak" = none → m.listener_peak = none) := by
  have hfields : m.listeners = safe_int0 (jgetD source "listeners") ∧
      m.listener_peak = safe_int (jgetD source "listener_peak") none := by
    unfold parse_mount_source at hm
    by_cases h1 : source.isEmpty = true
    · rw [if_pos h1] at hm
      cases hm
    · rw [if_neg h1] at hm
      cases hr : resolveMount source with
      | none => rw [hr] at hm; cases hm
      | some mp =>
        rw [hr] at hm
        have hinj := Option.some.inj hm
        rw [← hinj]
        exact ⟨rfl, rfl⟩
  refine ⟨?_, ?_, ?_, ?_⟩
  · intro h
    rw [hfields.1, show jgetD source "listeners" = JValue.jnull from by simp [jgetD, h]]
    rfl
  · intro v hv hnone
    rw [hfields.1, show jgetD source "listeners" = v from by simp [jgetD, hv]]
    rw [show safe_int0 v = (safe_int v (some 0)).getD 0 from rfl,
      safe_int_of_pyIntJ_none hnone]
    rfl
  · intro h
    rw [hfields.1, show jgetD source "listeners" = JValue.jstr "7" from by simp [jgetD, h]]
    decide
  · intro h
    rw [hfields.2,
      show jgetD source "listener_peak" = JValue.jnull from by simp [jgetD, h]]
    rfl

/-- A source object with a `mount` field, a string `"7"` listeners value
and no `listener_peak`. -/
def exSrcC5 : JObj := [("mount", JValue.jstr "/tower1"), ("listeners", JValue.jstr "7")]

/-- Witness for C5 at a concrete source object. -/
theorem parse_mount_source_defaults_witness :
    ∃ m, parse_mount_source exSrcC5 = some m ∧
      ((jget exSrcC5 "listeners" = none → m.listeners = 0) ∧
       (∀ v, jget exSrcC5 "listeners" = some v → pyIntJ v = none → m.listeners = 0) ∧
       (jget exSrcC5 "listeners" = some (JValue.jstr "7") → m.listeners = 7) ∧
       (jget exSrcC5 "listener_peak" = none → m.listener_peak = none)) := by
  cases hw : parse_mount_source exSrcC5 with
  | none => exact absurd hw (by decide)
  | some m => exact ⟨m, rfl, parse_mount_source_defaults exSrcC5 m hw⟩

/-! ### `parse_icecast_html` (source lines 264–336)

A table is modelled by the text the scraper extracts from it: the `th`
texts (in document order) and, per `tr`, the `td`/`th` cell texts. -/

structure HtmlTable where
  headerCells : List String
  rowCells : List (List String)
deriving DecidableEq, Repr

/-- Python `str.lower()` (ASCII model). -/
def strLower (s : String) : String := ⟨s.toList.map Char.toLower⟩

def listStarts : List Char → List Char → Bool
  | [], _ => true
  | _ :: _, [] => false
  | a :: as, b :: bs => a == b && listStarts as bs

/-- `needle in hay` for strings (Python substring test). -/
def hasSub (needle : List Char) : List Char → Bool
  | [] => listStarts needle []
  | c :: t => listStarts needle (c :: t) || hasSub needle t

/-- The header scan of `parse_icecast_html` (lines 288–299): walk the
lowercased headers with their indices; a header containing `"mount"`
(re-)assigns the mount column, else one equal to `"listeners"`
(re-)assigns the listeners column, else one containing `"peak"`
(re-)assigns the peak column. -/
def scanCols : List String → Nat → Option Nat → Option Nat → Option Nat →
    Option Nat × Option Nat × Option Nat
  | [], _, im, il, ip => (im, il, ip)
  | h :: t, i, im, il, ip =>
    if hasSub ("mount".toList) h.toList then scanCols t (i + 1) (some i) il ip
    else if h == "listeners" then scanCols t (i + 1) im (some i) ip
    else if hasSub ("peak".toList) h.toList then scanCols t (i + 1) im il (some i)
    else scanCols t (i + 1) im il ip

/-- `re.sub(r"[^0-9]", "", s)`. -/
def digitFilter (s : String) : String := ⟨s.toList.filter isDigitCh⟩

/-- Python dict assignment `d[k] = v`: replace in place or append. -/
def dictSet {K V : Type} [BEq K] (m : List (K × V)) (k : K) (v : V) : List (K × V) :=
  if m.any (fun e => e.1 == k) then
    m.map (fun e => if e.1 == k then (e.1, v) else e)
  else m ++ [(k, v)]

/-- The row loop of `parse_icecast_html` (lines 305–331) for one
candidate table. -/
def parseTableRows (idxM idxL : Nat) (idxP : Option Nat) :
    List (List String) → List (String × MountMetric) → List (String × MountMetric)
  | [], acc => acc
  | cells :: rest, acc =>
    if cells.length ≤ max idxM idxL then parseTableRows idxM idxL idxP rest acc
    else
      let mount := cells.getD idxM ""
      if mount == "" || strLower mount == "mount point" then
        parseTableRows idxM idxL idxP rest acc
      else
        let mount := if listStarts ("/".toList) mount.toList then mount else "/" ++ mount
        let listeners := safe_int0 (JValue.jstr (digitFilter (cells.getD idxL "")))
        let peak :=
          match idxP with
          | some ip =>
            if ip < cells.length then
              safe_int (JValue.jstr (digitFilter (cells.getD ip ""))) none
            else none
          | none => none
        parseTableRows idxM idxL idxP rest
          (dictSet acc mount
            { mountpoint := JValue.jstr mount, listeners := listeners,
              listener_peak := peak, title := JValue.jnull,
              description := JValue.jnull, bitrate := none,
              genre := JValue.jnull, stream_start := JValue.jnull,
              connected := none })

/-- `parse_icecast_html` over the extracted tables: lowercase the
headers, require a mount column and a listeners column, then collect the
rows of every candidate table into one mounts dict. -/
def parse_icecast_html (tables : List HtmlTable) : List (String × MountMetric) :=
  tables.foldl (fun acc table =>
    let headers := table.headerCells.map strLower
    if headers.isEmpty then acc
    else
      match scanCols headers 0 none none none with
      | (some im, some il, ip) => parseTableRows im il ip table.rowCells acc
      | _ => acc) []

/-! #### C4: which mount column a candidate table uses -/

theorem scanCols_no_mount :
    ∀ (l : List String), (∀ h ∈ l, hasSub ("mount".toList) h.toList = false) →
    ∀ (i : Nat) (im il ip : Option Nat), (scanCols l i im il ip).1 = im := by
  intro l
  induction l with
  | nil => intro _ i im il ip; rfl
  | cons h t ih =>
    intro hno i im il ip
    have hh : hasSub ("mount".toList) h.toList = false := hno h (by simp)
    show (scanCols (h :: t) i im il ip).1 = im
    rw [show scanCols (h :: t) i im il ip =
        (if hasSub ("mount".toList) h.toList then scanCols t (i + 1) (some i) il ip
         else if h == "listeners" then scanCols t (i + 1) im (some i) ip
         else if hasSub ("peak".toList) h.toList then scanCols t (i + 1) im il (some i)
         else scanCols t (i + 1) im il ip) from rfl]
    rw [hh]
    by_cases h2 : (h == "listeners") = true
    · rw [if_neg (by simp), if_pos h2]
      exact ih (fun x hx => hno x (by simp [hx])) _ _ _ _
    · rw [if_neg (by simp), if_neg (by simp [h2])]
      by_cases h3 : hasSub ("peak".toList) h.toList = true
      · rw [if_pos h3]
        exact ih (fun x hx => hno x (by simp [hx])) _ _ _ _
      · rw [if_neg h3]
        exact ih (fun x hx => hno x (by simp [hx])) _ _ _ _

/-- **C4 (amended)**: when a candidate table's (lowercased) headers
contain several headers with the substring `"mount"`, the mount column
index the scan produces is the **last** such column (the loop overwrites
`idx_mount` on every match), not the first. -/
theorem scanCols_mount_last :
    ∀ (pre : List String) (h : String) (post : List String),
    hasSub ("mount".toList) h.toList = true →
    (∀ h' ∈ post, hasSub ("mount".toList) h'.toList = false) →
    ∀ (i : Nat) (im il ip : Option Nat),
    (scanCols (pre ++ h :: post) i im il ip).1 = some (i + pre.length) := by
  intro pre
  induction pre with
  | nil =>
    intro h post hh hpost i im il ip
    show (scanCols (h :: post) i im il ip).1 = some (i + 0)
    rw [show scanCols (h :: post) i im il ip = scanCols post (i + 1) (some i) il ip
      from by
        rw [show scanCols (h :: post) i im il ip =
            (if hasSub ("mount".toList) h.toList then scanCols post (i + 1) (some i) il ip
             else if h == "listeners" then scanCols post (i + 1) im (some i) ip
             else if hasSub ("peak".toList) h.toList then scanCols post (i + 1) im il (some i)
             else scanCols post (i + 1) im il ip) from rfl]
        rw [hh]
        simp]
    rw [scanCols_no_mount post hpost]
    simp
  | cons h0 pre' ih =>
    intro h post hh hpost i im il ip
    have harith : i + (pre'.length + 1) = (i + 1) + pre'.length := by omega
    show (scanCols (h0 :: (pre' ++ h :: post)) i im il ip).1 = some (i + (pre'.length + 1))
    rw [show scanCols (h0 :: (pre' ++ h :: post)) i im il ip =
        (if hasSub ("mount".toList) h0.toList then
          scanCols (pre' ++ h :: post) (i + 1) (some i) il ip
         else if h0 == "listeners" then scanCols (pre' ++ h :: post) (i + 1) im (some i) ip
         else if hasSub ("peak".toList) h0.toList then
          scanCols (pre' ++ h :: post) (i + 1) im il (some i)
         else scanCols (pre' ++ h :: post) (i + 1) im il ip) from rfl]
    rw [harith]
    by_cases h1 : hasSub ("mount".toList) h0.toList = true
    · rw [if_pos h1]
      exact ih h post hh hpost (i + 1) (some i) il ip
    · rw [if_neg h1]
      by_cases h2 : (h0 == "listeners") = true
      · rw [if_pos h2]
        exact ih h post hh hpost (i + 1) im (some i) ip
      · rw [if_neg h2]
        by_cases h3 : hasSub ("peak".toList) h0.toList = true
        · rw [if_pos h3]
          exact ih h post hh hpost (i + 1) im il (some i)
        · rw [if_neg h3]
          exact ih h post hh hpost (i + 1) im il ip

/-- Witness for the amended C4: with lowercased headers
`["mount a", "mount b", "listeners"]` the scan selects column 1. -/
theorem scanCols_mount_last_witness :
    (scanCols ["mount a", "mount b", "listeners"] 0 none none none).1 =
      some (0 + (["mount a"] : List String).length) :=
  scanCols_mount_last ["mount a"] "mount b" ["listeners"] (by decide) (by decide)
    0 none none none

/-- **C4 (counterexample)**: a table whose headers are
`["Mount A", "Mount B", "Listeners"]` with data row `["/x", "/y", "42"]`
reads its mounts from the *second* mount column: the parse contains
`/y` (with 42 listeners) and not `/x`, while the claim (first mount
column) would require `/x`.  (The header row itself also survives as a
spurious `/Mount B` entry, since only a literal `"mount point"` cell is
skipped.) -/
theorem parse_icecast_html_counterexample :
    (parse_icecast_html [⟨["Mount A", "Mount B", "Listeners"],
        [["Mount A", "Mount B", "Listeners"], ["/x", "/y", "42"]]⟩]).map
        (fun e => e.1) = ["/Mount B", "/y"] ∧
    ((parse_icecast_html [⟨["Mount A", "Mount B", "Listeners"],
        [["Mount A", "Mount B", "Listeners"], ["/x", "/y", "42"]]⟩]).find?
        (fun e => e.1 == "/y")).map (fun e => e.2.listeners) = some 42 ∧
    (parse_icecast_html [⟨["Mount A", "Mount B", "Listeners"],
        [["Mount A", "Mount B", "Listeners"], ["/x", "/y", "42"]]⟩]).all
        (fun e => !(e.1 == "/x")) = true := by
  refine ⟨by decide, by decide, by decide⟩

/-! ### `fetch_listener_data` (source lines 338–388)

The two network attempts are modelled by their outcomes: `none` for a
request/parse failure (or missing BeautifulSoup), `some status`
otherwise.  A status is the dict either parser returns. -/

structure Status where
  mounts : List (JValue × MountMetric)
  fetched_at : String
deriving Repr

/-- `status["mounts"].get(mountpoint)`. -/
def jfind (mounts : List (JValue × MountMetric)) (k : JValue) : Option MountMetric :=
  (mounts.find? (fun e => e.1 == k)).map (fun e => e.2)

/-- One tracked source of `TRACKED_MOUNTPOINTS` (source lines 55–69). -/
structure TrackedConfig where
  id : String
  mountpoint : String
  label : String
  include_in_charts : Bool
  include_in_history : Bool
deriving DecidableEq, Repr

/-- The static registry: Tower 1 and Tower 2 only (Tower 3 is
intentionally excluded). -/
def TRACKED_MOUNTPOINTS : List TrackedConfig :=
  [⟨"tower1", "/tower1", "Tower 1", true, true⟩,
   ⟨"tower2", "/tower2", "Tower 2", true, true⟩]

/-- One entry of `result["towers"]` (source lines 373–382). -/
structure TowerInfo where
  id : String
  label : String
  mountpoint : String
  listeners : Int
  listener_peak : Option Int
  title : JValue
  include_in_charts : Bool
  include_in_history : Bool
deriving DecidableEq, Repr

/-- Lines 368–382: `mount_data = status["mounts"].get(mp, {})`, then
per-field `.get` with defaults (`listeners` 0, `listener_peak`/`title`
None). -/
def towerOf (mounts : List (JValue × MountMetric)) (c : TrackedConfig) : TowerInfo :=
  match jfind mounts (JValue.jstr c.mountpoint) with
  | some md => ⟨c.id, c.label, c.mountpoint, md.listeners, md.listener_peak, md.title,
      c.include_in_charts, c.include_in_history⟩
  | none => ⟨c.id, c.label, c.mountpoint, 0, none, JValue.jnull,
      c.include_in_charts, c.include_in_history⟩

/-- The per-source listener count the aggregation reads from the mounts
mapping (0 for an absent mount). -/
def listenersOf (mounts : List (JValue × MountMetric)) (mp : String) : Int :=
  match jfind mounts (JValue.jstr mp) with
  | some md => md.listeners
  | none => 0

/-- The combined result dict of `fetch_listener_data`. -/
structure FetchResult where
  mounts : List (JValue × MountMetric)
  towers : List (String × TowerInfo)
  total : Int
  fetched_at : String
deriving Repr

/-- The `for tower_id, config in TRACKED_MOUNTPOINTS.items()` loop
(lines 366–386): build the tower entry, and add its listeners to the
total only when `include_in_charts` is set. -/
def towersLoop (mounts : List (JValue × MountMetric)) :
    List TrackedConfig → List (String × TowerInfo) → Int →
    List (String × TowerInfo) × Int
  | [], accT, accN => (accT, accN)
  | c :: rest, accT, accN =>
    towersLoop mounts rest (dictSet accT c.id (towerOf mounts c))
      (if c.include_in_charts then accN + (towerOf mounts c).listeners else accN)

/-- The status the aggregation runs over (lines 349–356): try JSON; fall
back to HTML when JSON failed *or* yielded zero mounts; fall back to an
empty status when both failed. -/
def selectStatus (jsonRes htmlRes : Option Status) (nowIso : String) : Status :=
  match (match jsonRes with
         | some s => if s.mounts.isEmpty then htmlRes else some s
         | none => htmlRes) with
  | some s => s
  | none => ⟨[], nowIso⟩

/-- `fetch_listener_data()` with its upstream outcomes as inputs. -/
def fetch_listener_data (jsonRes htmlRes : Option Status) (nowIso : String)
    (tracked : List TrackedConfig) : FetchResult :=
  ⟨(selectStatus jsonRes htmlRes nowIso).mounts,
   (towersLoop (selectStatus jsonRes htmlRes nowIso).mounts tracked [] 0).1,
   (towersLoop (selectStatus jsonRes htmlRes nowIso).mounts tracked [] 0).2,
   (selectStatus jsonRes htmlRes nowIso).fetched_at⟩

/-! #### C3: the computed total -/

theorem towersLoop_total (mounts : List (JValue × MountMetric)) :
    ∀ (tracked : List TrackedConfig) (accT : List (String × TowerInfo)) (accN : Int),
    (towersLoop mounts tracked accT accN).2 =
      accN + ((tracked.filter (fun c => c.include_in_charts)).map
        (fun c => listenersOf mounts c.mountpoint)).sum := by
  intro tracked
  induction tracked with
  | nil => intro accT accN; simp [towersLoop]
  | cons c rest ih =>
    intro accT accN
    have hl : (towerOf mounts c).listeners = listenersOf mounts c.mountpoint := by
      unfold towerOf listenersOf
      cases jfind mounts (JValue.jstr c.mountpoint) with
      | some md => rfl
      | none => rfl
    show (towersLoop mounts rest (dictSet accT c.id (towerOf mounts c))
        (if c.include_in_charts then accN + (towerOf mounts c).listeners else accN)).2 = _
    rw [List.filter_cons]
    by_cases hc : c.include_in_charts = true
    · rw [if_pos hc, if_pos hc, ih, List.map_cons, List.sum_cons, hl]
      ring
    · rw [if_neg hc, if_neg hc]
      exact ih _ accN

/-- **C3**: for every upstream outcome and every registry, the
aggregated `total` is the sum of the per-source listener counts (an
absent mount contributing 0) over exactly the tracked sources whose
include-in-total flag (`include_in_charts`) is true; a flag-false source
never contributes, whatever its listener count (the sum ranges only over
the flag-true sources). -/
theorem fetch_total_spec (jsonRes htmlRes : Option Status) (nowIso : String)
    (tracked : List TrackedConfig) :
    (fetch_listener_data jsonRes htmlRes nowIso tracked).total =
      ((tracked.filter (fun c => c.include_in_charts)).map
        (fun c => listenersOf
          (fetch_listener_data jsonRes htmlRes nowIso tracked).mounts
          c.mountpoint)).sum := by
  show (towersLoop (selectStatus jsonRes htmlRes nowIso).mounts tracked [] 0).2 = _
  rw [towersLoop_total]
  rw [zero_add]
  rfl

/-! #### C6: the fetch never fails and always covers every source -/

theorem towersLoop_towers (mounts : List (JValue × MountMetric)) :
    ∀ (tracked : List TrackedConfig) (accT : List (String × TowerInfo)) (accN : Int),
    (tracked.map (fun c => c.id)).Nodup →
    (∀ c ∈ tracked, accT.any (fun e => e.1 == c.id) = false) →
    (towersLoop mounts tracked accT accN).1 =
      accT ++ tracked.map (fun c => (c.id, towerOf mounts c)) := by
  intro tracked
  induction tracked with
  | nil => intro accT accN _ _; simp [towersLoop]
  | cons c rest ih =>
    intro accT accN hnd hfresh
    have habs : accT.any (fun e => e.1 == c.id) = false := hfresh c (by simp)
    show (towersLoop mounts rest (dictSet accT c.id (towerOf mounts c)) _).1 = _
    have hset : dictSet accT c.id (towerOf mounts c) =
        accT ++ [(c.id, towerOf mounts c)] := by
      unfold dictSet
      rw [if_neg (by simp [habs])]
    rw [hset, ih (accT ++ [(c.id, towerOf mounts c)]) _ (List.nodup_cons.mp hnd).2 ?fresh]
    · simp
    case fresh =>
      intro x hx
      rw [List.any_append]
      have h1 : accT.any (fun e => e.1 == x.id) = false := hfresh x (by simp [hx])
      have h2 : ([(c.id, towerOf mounts c)] : List (String × TowerInfo)).any
          (fun e => e.1 == x.id) = false := by
        have hxid : x.id ≠ c.id := by
          intro hcid
          have hmem : x.id ∈ rest.map (fun c => c.id) := List.mem_map_of_mem _ hx
          rw [hcid] at hmem
          exact (List.nodup_cons.mp hnd).1 hmem
        simp only [List.any_cons, List.any_nil, Bool.or_false, beq_eq_false_iff_ne]
        exact fun hc => hxid hc.symm
      rw [h1, h2]
      rfl

theorem assoc_find_map (mounts : List (JValue × MountMetric)) :
    ∀ (tracked : List TrackedConfig), (tracked.map (fun c => c.id)).Nodup →
    ∀ c ∈ tracked,
    ((tracked.map (fun c => (c.id, towerOf mounts c))).find?
        (fun e => e.1 == c.id)).map (fun e => e.2) = some (towerOf mounts c) := by
  intro tracked
  induction tracked with
  | nil => intro _ c hc; cases hc
  | cons c0 rest ih =>
    intro hnd c hc
    rcases List.mem_cons.mp hc with h1 | h2
    · subst h1
      rw [List.map_cons]
      rw [List.find?_cons_of_pos _ (by simp)]
      rfl
    · rw [List.map_cons] at hnd
      have hnd2 : (rest.map (fun c => c.id)).Nodup := (List.nodup_cons.mp hnd).2
      have hnotmem : c0.id ∉ rest.map (fun c => c.id) := (List.nodup_cons.mp hnd).1
      have hne : (c0.id == c.id) = false := by
        simp only [beq_eq_false_iff_ne]
        intro hc0
        apply hnotmem
        rw [hc0]
        exact List.mem_map_of_mem _ h2
      rw [List.map_cons]
      rw [List.find?_cons_of_neg _ (by simp [hne])]
      exact ih hnd2 c h2

/-- **C6**: `fetch_listener_data` is a total function of its upstream
outcomes — for every combination of JSON and HTML results (failure,
success with zero mounts, success) it returns a result whose towers dict
has exactly one entry per tracked source (in registry order), and a
source whose mountpoint is absent from the selected mounts mapping gets
listeners 0 and an absent peak. -/
theorem fetch_covers_all_sources (jsonRes htmlRes : Option Status) (nowIso : String)
    (tracked : List TrackedConfig) (hnd : (tracked.map (fun c => c.id)).Nodup) :
    ((fetch_listener_data jsonRes htmlRes nowIso tracked).towers.map (fun e => e.1) =
      tracked.map (fun c => c.id)) ∧
    (∀ c ∈ tracked,
      ((fetch_listener_data jsonRes htmlRes nowIso tracked).towers.find?
          (fun e => e.1 == c.id)).map (fun e => e.2) =
        some (towerOf (fetch_listener_data jsonRes htmlRes nowIso tracked).mounts c) ∧
      (jfind (fetch_listener_data jsonRes htmlRes nowIso tracked).mounts
          (JValue.jstr c.mountpoint) = none →
        (towerOf (fetch_listener_data jsonRes htmlRes nowIso tracked).mounts c).listeners = 0 ∧
        (towerOf (fetch_listener_data jsonRes htmlRes nowIso tracked).mounts c).listener_peak
          = none)) := by
  have htow : (fetch_listener_data jsonRes htmlRes nowIso tracked).towers =
      tracked.map (fun c => (c.id,
        towerOf (fetch_listener_data jsonRes htmlRes nowIso tracked).mounts c)) := by
    show (towersLoop (selectStatus jsonRes htmlRes nowIso).mounts tracked [] 0).1 = _
    rw [towersLoop_towers _ tracked [] 0 hnd (by intro c _; rfl)]
    rw [List.nil_append]
    rfl
  constructor
  · rw [htow, List.map_map]
    apply List.map_congr_left
    intro c _
    rfl
  · intro c hc
    constructor
    · rw [htow]
      exact assoc_find_map _ tracked hnd c hc
    · intro habs
      unfold towerOf
      rw [habs]
      exact ⟨rfl, rfl⟩

/-- Witness for C6: both upstream attempts fail outright; every tracked
tower is still present, with zero listeners and no peak. -/
theorem fetch_covers_all_sources_witness :
    ((fetch_listener_data none none "t" TRACKED_MOUNTPOINTS).towers.map (fun e => e.1) =
      TRACKED_MOUNTPOINTS.map (fun c => c.id)) ∧
    (∀ c ∈ TRACKED_MOUNTPOINTS,
      ((fetch_listener_data none none "t" TRACKED_MOUNTPOINTS).towers.find?
          (fun e => e.1 == c.id)).map (fun e => e.2) =
        some (towerOf (fetch_listener_data none none "t" TRACKED_MOUNTPOINTS).mounts c) ∧
      (jfind (fetch_listener_data none none "t" TRACKED_MOUNTPOINTS).mounts
          (JValue.jstr c.mountpoint) = none →
        (towerOf (fetch_listener_data none none "t" TRACKED_MOUNTPOINTS).mounts c).listeners
          = 0 ∧
        (towerOf (fetch_listener_data none none "t" TRACKED_MOUNTPOINTS).mounts
          c).listener_peak = none)) :=
  fetch_covers_all_sources none none "t" TRACKED_MOUNTPOINTS (by decide)

end Scraper
